import Mathlib

/-!
# CRT hit reconstruction (`sbndcode/CRT/CRTSimHitProducer_module.cc`)

A shallow embedding of the hit-building code of `CRTSimHitProducer`, and of the
function `HitsCRT` of `sbndcode/TrackStitching/TrackStitching_module.cc`, and
the properties established about them.

Modelling conventions.

* A C++ `double` is a rational number: every finite double is one, and the
  arithmetic of the module (`+`, `-`, `*`, `/`, `std::min`, `std::max`,
  `std::abs`, comparisons) is taken exactly, without rounding, infinities or NaN.
* `atan` and `log` come from the C library, not from this repository; they are
  parameters of the embedding.  Where a property depends on what they compute,
  they are instantiated with the real functions `Real.arctan` and `Real.log`.
* A `std::vector<double>` holding the six bounds of a box is the record
  `Limits`; every such vector in the module is built with exactly six entries.
* The geometry and detector-property services are external; they are records of
  the values and functions the module asks them for.
* Reading `crtList[i]` past the end of the vector is an error: the pulse loop
  returns `none` there.
-/

namespace sbnd

/-! ## Data model -/

/-- A `double[3]` holding a point. -/
structure Vec3 where
  x : ℚ
  y : ℚ
  z : ℚ
deriving DecidableEq

/-- The six bounds `{minX, maxX, minY, maxY, minZ, maxZ}` that the module keeps
in a `std::vector<double>` (indices 0 to 5). -/
structure Limits where
  minX : ℚ
  maxX : ℚ
  minY : ℚ
  maxY : ℚ
  minZ : ℚ
  maxZ : ℚ
deriving DecidableEq

/-- Record `struct CRTStrip` of the source. -/
structure CRTStrip where
  t0 : ℚ
  channel : Nat
  x : ℚ
  ex : ℚ
  id1 : Int
  id2 : Int
  pes : ℚ
  tagger : String × Nat
deriving DecidableEq

/-- Modelled from the spec: the raw pulse record `crt::CRTData`, whose
declaration (`CRTData.hh`) is not part of the sources at hand.  The spec gives
it a channel id (unsigned), an integer time-of-arrival tick and an integrated
charge; the module also reads a track id.  `T0` is the tick as the integer the
module obtains from `(int)crtList[i]->T0()`. -/
structure CRTData where
  Channel : Nat
  T0 : Int
  ADC : Int
  TrackID : Int
deriving DecidableEq

/-- Modelled from the spec: the output record `crt::CRTHit`, whose declaration
(`CRTHit.hh`) is not part of the sources at hand; it has the fields that
`FillCrtHit` assigns. -/
structure CRTHit where
  feb_id : List Nat
  pesmap : List (Nat × List (Int × ℚ))
  peshit : ℚ
  ts0_s_corr : ℚ
  ts0_ns : ℚ
  ts0_ns_corr : ℚ
  ts1_ns : ℚ
  ts0_s : ℚ
  x_pos : ℚ
  x_err : ℚ
  y_pos : ℚ
  y_err : ℚ
  z_pos : ℚ
  z_err : ℚ
  tagger : String
deriving DecidableEq

/-! ## External services -/

/-- What the module reads from a `geo::AuxDetSensitiveGeo` (one strip). -/
structure AuxDetSensitiveGeo where
  HalfWidth1 : ℚ
  HalfHeight : ℚ
  HalfLength : ℚ
  LocalToWorld : Vec3 → Vec3
  /-- Value of `TotalVolume()->GetName()`. -/
  volName : String

/-- What the module reads from a `TGeoNode`. -/
structure TGeoNode where
  GetName : String
  LocalToMaster : Vec3 → Vec3

/-- A tagger node: a `TGeoNode` together with its daughters
(`GetNdaughters`, `GetDaughter`). -/
structure TaggerNode where
  GetName : String
  daughters : List TGeoNode

/-- What the module reads from the geometry services (`fGeometryService`,
`fAuxDetGeoCore` and the ROOT geometry manager). -/
structure Geometry where
  DetHalfWidth : ℚ
  /-- Value of `AuxDet(module).TotalVolume()->GetName()`. -/
  AuxDetName : Nat → String
  AuxDetHalfHeight : Nat → ℚ
  AuxDetHalfWidth1 : Nat → ℚ
  AuxDetLength : Nat → ℚ
  ChannelToAuxDetSensitive : String → Nat → AuxDetSensitiveGeo
  /-- Node `GetMother(2)` after `cd` to the first path of the strip volume of
  the given name. -/
  nodeModule : String → TGeoNode
  /-- Node `GetMother(3)` after the same `cd`. -/
  nodeTagger : String → TaggerNode

/-- What the module reads from `detinfo::DetectorProperties`. -/
structure DetectorProperties where
  ReadOutWindowSize : Nat
  DriftVelocity : ℚ

/-- The members of `class CRTSimHitProducer` that the computation uses, and the
two C library functions it calls. -/
structure CRTSimHitProducer where
  fTimeCoincidenceLimit : ℚ
  fQPed : ℚ
  fQSlope : ℚ
  fUseReadoutWindow : Bool
  fGeometryService : Geometry
  fDetectorProperties : DetectorProperties
  atan : ℚ → ℚ
  log : ℚ → ℚ

/-! ## `CrtOverlap` -/

/-- The vector `null` of `CrtOverlap`: six copies of `-99999`. -/
def null : Limits := ⟨-99999, -99999, -99999, -99999, -99999, -99999⟩

/-- Function `CRTSimHitProducer::CrtOverlap`. -/
def CrtOverlap (strip1 strip2 : Limits) : Limits :=
  let minX := max strip1.minX strip2.minX
  let maxX := min strip1.maxX strip2.maxX
  let minY := max strip1.minY strip2.minY
  let maxY := min strip1.maxY strip2.maxY
  let minZ := max strip1.minZ strip2.minZ
  let maxZ := min strip1.maxZ strip2.maxZ
  let overlap : Limits := ⟨minX, maxX, minY, maxY, minZ, maxZ⟩
  if (minX < maxX ∧ minY < maxY) ∨ (minX < maxX ∧ minZ < maxZ) ∨ (minY < maxY ∧ minZ < maxZ)
  then overlap else null

/-- Number of axes on which the two boxes have `lo < hi` strictly, with
`lo = max(min1, min2)` and `hi = min(max1, max2)`. -/
def strictAxes (b1 b2 : Limits) : Nat :=
  (if max b1.minX b2.minX < min b1.maxX b2.maxX then 1 else 0)
  + (if max b1.minY b2.minY < min b1.maxY b2.maxY then 1 else 0)
  + (if max b1.minZ b2.minZ < min b1.maxZ b2.maxZ then 1 else 0)

/-- The box `(loX, hiX, loY, hiY, loZ, hiZ)` of per-axis `lo = max(min1, min2)`
and `hi = min(max1, max2)`. -/
def intersectionBox (b1 b2 : Limits) : Limits :=
  ⟨max b1.minX b2.minX, min b1.maxX b2.maxX,
   max b1.minY b2.minY, min b1.maxY b2.maxY,
   max b1.minZ b2.minZ, min b1.maxZ b2.maxZ⟩

/-! ## Geometry helpers -/

/-- Function `CRTSimHitProducer::ChannelToLimits`. -/
def ChannelToLimits (self : CRTSimHitProducer) (stripHit : CRTStrip) : Limits :=
  let strip := (stripHit.channel >>> 1) &&& 15
  let module := stripHit.channel >>> 5
  let name := self.fGeometryService.AuxDetName module
  let stripGeo := self.fGeometryService.ChannelToAuxDetSensitive name (2 * strip)
  let halfWidth := stripGeo.HalfWidth1
  let halfHeight := stripGeo.HalfHeight
  let halfLength := stripGeo.HalfLength
  let l1 : Vec3 := ⟨-halfWidth + stripHit.x + stripHit.ex, halfHeight, halfLength⟩
  let w1 := stripGeo.LocalToWorld l1
  let l2 : Vec3 := ⟨-halfWidth + stripHit.x - stripHit.ex, -halfHeight, -halfLength⟩
  let w2 := stripGeo.LocalToWorld l2
  ⟨min w1.x w2.x, max w1.x w2.x, min w1.y w2.y, max w1.y w2.y, min w1.z w2.z, max w1.z w2.z⟩

/-- Function `CRTSimHitProducer::ChannelToTagger`. -/
def ChannelToTagger (self : CRTSimHitProducer) (channel : Nat) : String × Nat :=
  let strip := (channel >>> 1) &&& 15
  let module := channel >>> 5
  let name := self.fGeometryService.AuxDetName module
  let stripGeo := self.fGeometryService.ChannelToAuxDetSensitive name (2 * strip)
  let nodeModule := self.fGeometryService.nodeModule stripGeo.volName
  let nodeTagger := self.fGeometryService.nodeTagger stripGeo.volName
  let origin : Vec3 := ⟨0, 0, 0⟩
  let modulePosMother := nodeModule.LocalToMaster origin
  let planeID : Nat := if modulePosMother.z > 0 then 1 else 0
  (nodeTagger.GetName, planeID)

/-- Function `CRTSimHitProducer::CheckModuleOverlap`: some daughter of the
tagger, of another name and of the other plane, has limits for which
`CrtOverlap` answers a vector whose entry 0 is not `-99999`. -/
def CheckModuleOverlap (self : CRTSimHitProducer) (channel : Nat) : Bool :=
  let strip := (channel >>> 1) &&& 15
  let module := channel >>> 5
  let name := self.fGeometryService.AuxDetName module
  let stripGeo := self.fGeometryService.ChannelToAuxDetSensitive name (2 * strip)
  let nodeModule := self.fGeometryService.nodeModule stripGeo.volName
  let nodeTagger := self.fGeometryService.nodeTagger stripGeo.volName
  let modName := nodeModule.GetName
  let height := self.fGeometryService.AuxDetHalfHeight module
  let width := self.fGeometryService.AuxDetHalfWidth1 module
  let length := self.fGeometryService.AuxDetLength module / 2
  let pos1 : Vec3 := ⟨width, height, length⟩
  let tagp1 := nodeModule.LocalToMaster pos1
  let pos2 : Vec3 := ⟨-width, -height, -length⟩
  let tagp2 := nodeModule.LocalToMaster pos2
  let limits : Limits :=
    ⟨min tagp1.x tagp2.x, max tagp1.x tagp2.x, min tagp1.y tagp2.y, max tagp1.y tagp2.y,
     min tagp1.z tagp2.z, max tagp1.z tagp2.z⟩
  let origin : Vec3 := ⟨0, 0, 0⟩
  let modulePosMother := nodeModule.LocalToMaster origin
  let planeID : Nat := if modulePosMother.z > 0 then 1 else 0
  nodeTagger.daughters.any fun nodeDaughter =>
    if nodeDaughter.GetName = modName then false
    else
      let d_tagp1 := nodeDaughter.LocalToMaster pos1
      let d_tagp2 := nodeDaughter.LocalToMaster pos2
      let d_limits : Limits :=
        ⟨min d_tagp1.x d_tagp2.x, max d_tagp1.x d_tagp2.x, min d_tagp1.y d_tagp2.y,
         max d_tagp1.y d_tagp2.y, min d_tagp1.z d_tagp2.z, max d_tagp1.z d_tagp2.z⟩
      let d_modulePosMother := nodeDaughter.LocalToMaster origin
      let d_planeID : Nat := if d_modulePosMother.z > 0 then 1 else 0
      let overlap := CrtOverlap limits d_limits
      decide (overlap.minX ≠ -99999 ∧ d_planeID ≠ planeID)

/-- Function `CRTSimHitProducer::FillCrtHit`. -/
def FillCrtHit (tfeb_id : List Nat) (tpesmap : List (Nat × List (Int × ℚ))) (peshit : ℚ)
    (time x ex y ey z ez : ℚ) (tagger : String) : CRTHit :=
  { feb_id := tfeb_id
    pesmap := tpesmap
    peshit := peshit
    ts0_s_corr := 0
    ts0_ns := time * 0.5 * 10e3
    ts0_ns_corr := 0
    ts1_ns := time * 0.5 * 10e3
    ts0_s := time * 0.5 * 10e-6
    x_pos := x
    x_err := ex
    y_pos := y
    y_err := ey
    z_pos := z
    z_err := ez
    tagger := tagger }

/-! ## Strip hit builder (the pulse loop of `produce`) -/

/-- Position along the strip, `(width/2.)*atan(log(1.*npe2/npe1)) + (width/2.)`,
over any field and for any `atan` and `log`. -/
def stripPosition {α : Type} [Field α] (atan log : α → α) (width npe1 npe2 : α) : α :=
  (width / 2) * atan (log (1 * npe2 / npe1)) + (width / 2)

/-- Variable `normx` of the error model, `x + 0.344677*x - 1.92045`. -/
def normx {α : Type} [Field α] (x : α) : α :=
  x + 0.344677 * x - 1.92045

/-- Variable `ex`, `1.92380e+00+1.47186e-02*normx-5.29446e-03*normx*normx`. -/
def stripError {α : Type} [Field α] (x : α) : α :=
  1.92380e+00 + 1.47186e-02 * normx x - 5.29446e-03 * normx x * normx x

/-- Variable `readoutWindow` of `produce`. -/
def readoutWindow (self : CRTSimHitProducer) : ℚ :=
  (self.fDetectorProperties.ReadOutWindowSize : ℚ)

/-- Variable `driftTimeTicks` of `produce`. -/
def driftTimeTicks (self : CRTSimHitProducer) : ℚ :=
  2.0 * (2 * self.fGeometryService.DetHalfWidth + 3) / self.fDetectorProperties.DriftVelocity

/-- Variable `t1` (and `t2`): `(double)(int)T0()/8.`. -/
def tickTime (p : CRTData) : ℚ :=
  (p.T0 : ℚ) / 8

/-- The readout-window test of the pulse loop: `false` exactly when the loop
takes its `continue`. -/
def passesReadoutWindow (self : CRTSimHitProducer) (p : CRTData) : Bool :=
  if self.fUseReadoutWindow then
    decide (tickTime p ≥ -driftTimeTicks self ∧ tickTime p ≤ readoutWindow self)
  else true

/-- Number of photoelectrons `((double)ADC() - fQPed)/fQSlope`. -/
def npe (self : CRTSimHitProducer) (p : CRTData) : ℚ :=
  ((p.ADC : ℚ) - self.fQPed) / self.fQSlope

/-- The strip hit that one pass of the pulse loop builds from `crtList[i]` and
`crtList[i+1]`. -/
def makeStripHit (self : CRTSimHitProducer) (p1 p2 : CRTData) : CRTStrip :=
  let t1 := tickTime p1
  let channel := p1.Channel
  let strip := (channel >>> 1) &&& 15
  let module := channel >>> 5
  let name := self.fGeometryService.AuxDetName module
  let stripGeo := self.fGeometryService.ChannelToAuxDetSensitive name (2 * strip)
  let width := 2 * stripGeo.HalfWidth1
  let tagger := ChannelToTagger self channel
  let id1 := p1.TrackID
  let id2 := p2.TrackID
  let t2 := tickTime p2
  let npe1 := npe self p1
  let npe2 := npe self p2
  let x := stripPosition self.atan self.log width npe1 npe2
  let ex := stripError x
  let time := (t1 + t2) / 2
  ⟨time, channel, x, ex, id1, id2, npe1 + npe2, tagger⟩

/-- The pulse loop `for (size_t i = 0; i < crtList.size(); i+=2)`: the strip
hits in the order in which they are built, or `none` when the loop reads
`crtList[i+1]` at `i+1 = crtList.size()`. -/
def buildStripHits (self : CRTSimHitProducer) : List CRTData → Option (List CRTStrip)
  | [] => some []
  | [p] => if passesReadoutWindow self p then none else some []
  | p1 :: p2 :: rest =>
    if passesReadoutWindow self p1 then
      (buildStripHits self rest).map fun hits => makeStripHit self p1 p2 :: hits
    else buildStripHits self rest

/-! ## Grouping by tagger and removal of duplicates -/

/-- The comparison passed to `std::sort`:
`(a.t0 < b.t0) || ((a.t0 == b.t0) && (a.channel < b.channel))`. -/
def sortComp (a b : CRTStrip) : Prop :=
  a.t0 < b.t0 ∨ (a.t0 = b.t0 ∧ a.channel < b.channel)

instance sortCompDecidable : DecidableRel sortComp :=
  fun a b => by unfold sortComp; infer_instance

/-- The predicate passed to `std::unique`: `a.t0 == b.t0 && a.channel == b.channel`. -/
def uniquePred (a b : CRTStrip) : Bool :=
  decide (a.t0 = b.t0 ∧ a.channel = b.channel)

/-- Order in which `std::sort` may leave `a` before `b`: `b` is not below `a`
for the comparison. -/
def notAfter (a b : CRTStrip) : Prop :=
  ¬ sortComp b a

instance notAfterDecidable : DecidableRel notAfter :=
  fun a b => by unfold notAfter; infer_instance

/-- The call of `std::sort` with `sortComp`, as an insertion sort.  `std::sort`
leaves the order of elements that the comparison does not separate unspecified;
this is one of the orders it may produce. -/
def sortStrips (l : List CRTStrip) : List CRTStrip :=
  l.insertionSort notAfter

/-- Inner loop of `std::unique`: `last` is the last element kept so far. -/
def uniqueAux {α : Type} (pred : α → α → Bool) (last : α) : List α → List α
  | [] => []
  | b :: l => if pred last b then uniqueAux pred last l else b :: uniqueAux pred b l

/-- The elements that `std::unique` keeps (those before the iterator it
returns), which is what remains after the `erase`. -/
def std_unique {α : Type} (pred : α → α → Bool) : List α → List α
  | [] => []
  | a :: l => a :: uniqueAux pred a l

/-- The sort and the `erase(std::unique(...))` applied to one partition. -/
def dedupStrips (l : List CRTStrip) : List CRTStrip :=
  std_unique uniquePred (sortStrips l)

/-- The pair `(time, channel)` of a strip hit. -/
def stripKey (s : CRTStrip) : ℚ × Nat :=
  (s.t0, s.channel)

/-- Comparison `operator<` of `std::pair<std::string, unsigned>`; the strings
are compared character by character. -/
def keyLess (a b : String × Nat) : Bool :=
  decide (a.1.data < b.1.data) || (!decide (b.1.data < a.1.data) && decide (a.2 < b.2))

/-- The map `taggerStrips`: its entries in the order of their keys. -/
abbrev TaggerStrips := List ((String × Nat) × List CRTStrip)

/-- The statement `taggerStrips[tagger].push_back(stripHit)`. -/
def pushBack : TaggerStrips → String × Nat → CRTStrip → TaggerStrips
  | [], k, s => [(k, [s])]
  | (k', v) :: rest, k, s =>
    if k = k' then (k', v ++ [s]) :: rest
    else if keyLess k k' then (k, [s]) :: (k', v) :: rest
    else (k', v) :: pushBack rest k s

/-- The map after the pulse loop: every strip hit pushed under its tagger, in
the order in which the hits were built. -/
def groupStrips (hits : List CRTStrip) : TaggerStrips :=
  hits.foldl (fun m h => pushBack m h.tagger h) []

/-- The loop that sorts every partition and erases its duplicates. -/
def dedupAll (m : TaggerStrips) : TaggerStrips :=
  m.map fun e => (e.1, dedupStrips e.2)

/-- The vector read by `taggerStrips[otherPlane]`: the one stored under the key,
or the empty one that `operator[]` creates. -/
def stripsAt (m : TaggerStrips) (k : String × Nat) : List CRTStrip :=
  match m.find? (fun e => decide (e.1 = k)) with
  | some e => e.2
  | none => []

/-! ## Overlap matcher (the tagger loop of `produce`) -/

/-- The hit of a single plane: midpoint and half extent of the limits of the
strip hit, and its own time. -/
def singlePlaneHit (self : CRTSimHitProducer) (tagger : String) (h : CRTStrip) : CRTHit :=
  let limits1 := ChannelToLimits self h
  let mean : Vec3 := ⟨(limits1.minX + limits1.maxX) / 2, (limits1.minY + limits1.maxY) / 2,
    (limits1.minZ + limits1.maxZ) / 2⟩
  let error : Vec3 := ⟨|(limits1.maxX - limits1.minX) / 2|, |(limits1.maxY - limits1.minY) / 2|,
    |(limits1.maxZ - limits1.minZ) / 2|⟩
  let time := h.t0
  FillCrtHit [0] [(0, [(0, 0)])] 0 time mean.x error.x mean.y error.y mean.z error.z tagger

/-- Body of the loop over `hit_j` for the strip hit `h` of the first plane: the
hit recorded for `(h, h2)`, if one is. -/
def matchedHit (self : CRTSimHitProducer) (tagger : String) (h h2 : CRTStrip) : Option CRTHit :=
  let limits1 := ChannelToLimits self h
  let limits2 := ChannelToLimits self h2
  let overlap := CrtOverlap limits1 limits2
  let t0_1 := h.t0
  let t0_2 := h2.t0
  if overlap.minX ≠ -99999 ∧ |t0_1 - t0_2| < self.fTimeCoincidenceLimit then
    let mean : Vec3 := ⟨(overlap.minX + overlap.maxX) / 2, (overlap.minY + overlap.maxY) / 2,
      (overlap.minZ + overlap.maxZ) / 2⟩
    let error : Vec3 := ⟨|(overlap.maxX - overlap.minX) / 2|, |(overlap.maxY - overlap.minY) / 2|,
      |(overlap.maxZ - overlap.minZ) / 2|⟩
    let time := (t0_1 + t0_2) / 2
    some (FillCrtHit [0] [(0, [(0, 0)])] 0 time mean.x error.x mean.y error.y mean.z error.z
      tagger)
  else none

/-- Body of the loop over `hit_i`: the hits pushed for the strip hit `h` of the
first plane, `other` being the strip hits of the other plane. -/
def firstPlaneHits (self : CRTSimHitProducer) (tagger : String) (other : List CRTStrip)
    (h : CRTStrip) : List CRTHit :=
  if CheckModuleOverlap self h.channel then other.filterMap (matchedHit self tagger h)
  else [singlePlaneHit self tagger h]

/-- The second loop over `hit_j`: a single-plane hit for every strip hit of the
other plane whose module has no overlap. -/
def otherPlaneHits (self : CRTSimHitProducer) (tagger : String) (other : List CRTStrip) :
    List CRTHit :=
  other.filterMap fun h2 =>
    if !CheckModuleOverlap self h2.channel then some (singlePlaneHit self tagger h2) else none

/-- The loop `for (auto &tagStrip : taggerStrips)`, over the entries still to
visit, with the names in `usedTaggers`.  The entry that `taggerStrips[otherPlane]`
may create is empty and its name is in `usedTaggers` by then, so it adds no hit
and the entries to visit are those of the map before the loop. -/
def taggerLoop (self : CRTSimHitProducer) (taggerStrips : TaggerStrips) :
    TaggerStrips → List String → List CRTHit
  | [], _ => []
  | tagStrip :: rest, usedTaggers =>
    if usedTaggers.contains tagStrip.1.1 then taggerLoop self taggerStrips rest usedTaggers
    else
      let planeID : Nat := if tagStrip.1.2 = 0 then 1 else 0
      let otherPlane : String × Nat := (tagStrip.1.1, planeID)
      let other := stripsAt taggerStrips otherPlane
      tagStrip.2.flatMap (firstPlaneHits self tagStrip.1.1 other)
        ++ otherPlaneHits self otherPlane.1 other
        ++ taggerLoop self taggerStrips rest (usedTaggers ++ [tagStrip.1.1])

/-- Function `CRTSimHitProducer::produce`: the hits put into the event, from the
pulses found under the label (`none` when `getByLabel` finds nothing).  The
result is `none` when the pulse loop reads past the end of `crtList`. -/
def produce (self : CRTSimHitProducer) (crtListHandle : Option (List CRTData)) :
    Option (List CRTHit) :=
  let crtList := crtListHandle.getD []
  (buildStripHits self crtList).map fun hits =>
    let taggerStrips := dedupAll (groupStrips hits)
    taggerLoop self taggerStrips taggerStrips []

/-- The pulses taken two at a time in their order: `(crtList[0], crtList[1])`,
`(crtList[2], crtList[3])`, and so on; a last pulse without a partner is in no
pair. -/
def pulsePairs : List CRTData → List (CRTData × CRTData)
  | p1 :: p2 :: rest => (p1, p2) :: pulsePairs rest
  | _ => []

/-! ## A small detector, for concrete evaluations -/

/-- Translation by `(a, b, c)`. -/
def translate (a b c : ℚ) (p : Vec3) : Vec3 :=
  ⟨p.x + a, p.y + b, p.z + c⟩

/-- A detector with one tagger `"tagger"` of two modules, `"m0"` in plane 0 and
`"m1"` in plane 1, whose footprints overlap; the strips of `"m0"` are placed in
the world by the translation `(shift, 0, 0)` and those of `"m1"` by
`(shift, 0, 1)`.  The readout window is on when `gate` is.  The pulses used with
it have equal charges, for which `log` and `atan` are evaluated at `1` and `0`
only, where they are `0`. -/
def smallDetector (shift : ℚ) (gate : Bool) : CRTSimHitProducer where
  fTimeCoincidenceLimit := 1
  fQPed := 0
  fQSlope := 1
  fUseReadoutWindow := gate
  fGeometryService :=
    { DetHalfWidth := 1
      AuxDetName := fun module => if module = 0 then "m0" else "m1"
      AuxDetHalfHeight := fun _ => 1
      AuxDetHalfWidth1 := fun _ => 1
      AuxDetLength := fun _ => 4
      ChannelToAuxDetSensitive := fun name _ =>
        if name = "m0" then ⟨1, 1, 1, translate shift 0 0, "s0"⟩
        else ⟨1, 1, 1, translate shift 0 1, "s1"⟩
      nodeModule := fun vol =>
        if vol = "s0" then ⟨"m0", translate 0 0 (-1)⟩ else ⟨"m1", translate 0 0 1⟩
      nodeTagger := fun _ =>
        ⟨"tagger", [⟨"m0", translate 0 0 (-1)⟩, ⟨"m1", translate 0 0 1⟩]⟩ }
  fDetectorProperties := { ReadOutWindowSize := 100, DriftVelocity := 1 }
  atan := fun _ => 0
  log := fun _ => 0

/-- A pulse of charge 1 at tick `T0` on channel 0 (module `"m0"`, strip 0). -/
def pulseA (T0 : Int) : CRTData :=
  ⟨0, T0, 1, 0⟩

/-- A pulse of charge 1 at tick `T0` on channel 32 (module `"m1"`, strip 0). -/
def pulseB (T0 : Int) : CRTData :=
  ⟨32, T0, 1, 0⟩

/-- The translation along x that puts the lower x bound of a strip hit at the
middle of a strip of the small detector (`x = 1`) at exactly `-99999`. -/
def farShift : ℚ :=
  stripError 1 - 99999

/-- The strip hit of the small detector placed at `shift`, built from two pulses
`pulseA T0`: module `"m0"`, plane 0, at the middle of the strip, time `T0/8`. -/
def stripA (shift : ℚ) (T0 : Int) : CRTStrip :=
  makeStripHit (smallDetector shift false) (pulseA T0) (pulseA T0)

/-- The strip hit of the small detector placed at `shift`, built from two pulses
`pulseB T0`: module `"m1"`, plane 1, at the middle of the strip, time `T0/8`. -/
def stripB (shift : ℚ) (T0 : Int) : CRTStrip :=
  makeStripHit (smallDetector shift false) (pulseB T0) (pulseB T0)

/-- A detector like `smallDetector 0 false` whose strips have half width 20
(width 40). -/
def wideDetector : CRTSimHitProducer :=
  { smallDetector 0 false with
    fGeometryService :=
      { (smallDetector 0 false).fGeometryService with
        ChannelToAuxDetSensitive := fun name _ =>
          if name = "m0" then ⟨20, 1, 1, translate 0 0 0, "s0"⟩
          else ⟨20, 1, 1, translate 0 0 1, "s1"⟩ } }

/-- A detector like `smallDetector 0 false` whose two modules are apart in the
tagger, along x and along y: no module overlaps another. -/
def separateDetector : CRTSimHitProducer :=
  { smallDetector 0 false with
    fGeometryService :=
      { (smallDetector 0 false).fGeometryService with
        nodeModule := fun vol =>
          if vol = "s0" then ⟨"m0", translate 0 0 (-1)⟩ else ⟨"m1", translate 10 10 1⟩
        nodeTagger := fun _ =>
          ⟨"tagger", [⟨"m0", translate 0 0 (-1)⟩, ⟨"m1", translate 10 10 1⟩]⟩ } }

/-! ## Quantities used in the statements -/

/-- Variable `strip` of the source: `(channel >> 1) & 15`. -/
def stripOfChannel (channel : Nat) : Nat :=
  (channel >>> 1) &&& 15

/-- Variable `module` of the source: `channel >> 5`. -/
def moduleOfChannel (channel : Nat) : Nat :=
  channel >>> 5

/-- Variable `stripGeo` of the source: the strip that the geometry gives for a
channel, `ChannelToAuxDetSensitive(name, 2*strip)` with `name` the name of the
volume of `AuxDet(module)`. -/
def stripGeoOfChannel (self : CRTSimHitProducer) (channel : Nat) : AuxDetSensitiveGeo :=
  self.fGeometryService.ChannelToAuxDetSensitive
    (self.fGeometryService.AuxDetName (moduleOfChannel channel)) (2 * stripOfChannel channel)

/-- All strip hits of the map, partition after partition. -/
def allStrips (ts : TaggerStrips) : List CRTStrip :=
  ts.flatMap fun e => e.2

/-- The plane opposite to plane `p`, as the tagger loop computes `planeID`:
1 for plane 0, and 0 otherwise. -/
def oppositePlane (p : Nat) : Nat :=
  if p = 0 then 1 else 0

/-- The first plane of a tagger: plane 0 if its partition is not empty, plane 1
otherwise. -/
def primaryPlane (ts : TaggerStrips) (name : String) : Nat :=
  if stripsAt ts (name, 0) ≠ [] then 0 else 1

/-- The pair `(h, h2)` has a non-sentinel `CrtOverlap` of the two boxes (entry 0
is not `-99999`) and `|h.time - h2.time| < timeCoincidenceLimit`. -/
def pairMatches (self : CRTSimHitProducer) (h h2 : CRTStrip) : Bool :=
  decide ((CrtOverlap (ChannelToLimits self h) (ChannelToLimits self h2)).minX ≠ -99999
    ∧ |h.t0 - h2.t0| < self.fTimeCoincidenceLimit)

/-- Number of pairs `(h, h2)` of a tagger with `h` in its first plane and in an
overlapping module, `h2` in the opposite plane, and `pairMatches`. -/
def matchedPairCount (self : CRTSimHitProducer) (ts : TaggerStrips) (name : String) : Nat :=
  (((stripsAt ts (name, primaryPlane ts name)).filter
      fun h => CheckModuleOverlap self h.channel).map
    fun h => ((stripsAt ts (name, oppositePlane (primaryPlane ts name))).filter
      (pairMatches self h)).length).sum

/-- Number `S` of strip hits of the map whose module is not overlapping. -/
def singleCount (self : CRTSimHitProducer) (ts : TaggerStrips) : Nat :=
  ((allStrips ts).filter fun h => !CheckModuleOverlap self h.channel).length

/-- Number `M`: the sum over the tagger names of `matchedPairCount`. -/
def matchedCount (self : CRTSimHitProducer) (ts : TaggerStrips) : Nat :=
  (ts.map fun e => e.1.1).toFinset.sum (matchedPairCount self ts)

/-- The entry is the partition of the first plane of its tagger. -/
def isPrimaryEntry (ts : TaggerStrips) (e : (String × Nat) × List CRTStrip) : Bool :=
  decide (e.1.2 = primaryPlane ts e.1.1)

/-- The single-plane hits of the strip hits, among the entries `rest`, whose
module is not overlapping: one for each. -/
def singleHitsOf (self : CRTSimHitProducer) (rest : TaggerStrips) : List CRTHit :=
  rest.flatMap fun e =>
    (e.2.filter fun h => !CheckModuleOverlap self h.channel).map (singlePlaneHit self e.1.1)

/-- The matched hits of one entry taken as first plane: for each of its strip
hits `h` in an overlapping module, the hits recorded for the pairs `(h, h2)`,
`h2` in the opposite plane. -/
def matchedHitsOfEntry (self : CRTSimHitProducer) (ts : TaggerStrips)
    (e : (String × Nat) × List CRTStrip) : List CRTHit :=
  (e.2.filter fun h => CheckModuleOverlap self h.channel).flatMap fun h =>
    (stripsAt ts (e.1.1, oppositePlane e.1.2)).filterMap (matchedHit self e.1.1 h)

/-- The matched hits of the entries, among `rest`, that are the first plane of
their tagger. -/
def matchedHitsOf (self : CRTSimHitProducer) (ts rest : TaggerStrips) : List CRTHit :=
  (rest.filter (isPrimaryEntry ts)).flatMap (matchedHitsOfEntry self ts)

/-- The map is as the pulse loop leaves it: keys in strictly increasing order
(tagger name, then plane), planes 0 or 1, no empty partition. -/
def WellGrouped (ts : TaggerStrips) : Prop :=
  ts.Pairwise (fun a b => toLex a.1 < toLex b.1)
  ∧ (∀ e ∈ ts, e.1.2 ≤ 1) ∧ (∀ e ∈ ts, e.2 ≠ [])

/-- Relation, on one axis, between the intervals `[min1, max1]` and
`[min2, max2]` of two boxes and the coordinate `pos` and error `err` of a hit:
when `lo < hi` (`lo = max(min1, min2)`, `hi = min(max1, max2)`), `pos` is
strictly inside both intervals; when `hi < lo`, the intervals are apart, `pos`
is strictly outside both, at the middle of the gap between them, and `err` is
half the width of the gap. -/
def axisRelation (min1 max1 min2 max2 pos err : ℚ) : Prop :=
  (max min1 min2 < min max1 max2 →
    (min1 < pos ∧ pos < max1) ∧ (min2 < pos ∧ pos < max2))
  ∧ (min max1 max2 < max min1 min2 →
      ((pos < min1 ∨ max1 < pos) ∧ (pos < min2 ∨ max2 < pos))
      ∧ ((max1 < min2 ∧ pos = (max1 + min2) / 2 ∧ err = (min2 - max1) / 2)
        ∨ (max2 < min1 ∧ pos = (max2 + min1) / 2 ∧ err = (min1 - max2) / 2)))

/-- Number of photoelectrons `((double)ADC - fQPed)/fQSlope`, over any field. -/
def photoelectrons {α : Type} [Field α] (adc qped qslope : α) : α :=
  (adc - qped) / qslope

/-! ## `HitsCRT` (`sbndcode/TrackStitching/TrackStitching_module.cc`) -/

/-- What `HitsCRT` reads from a `simb::MCParticle`: the PDG code and the
trajectory points `(Vx(i), Vy(i), Vz(i))`, `i` below
`NumberTrajectoryPoints()`. -/
structure MCParticle where
  PdgCode : Int
  trajectory : List Vec3

/-- What `HitsCRT` reads from `geo::Geometry`. -/
structure TpcGeometry where
  DetHalfWidth : ℚ
  DetHalfHeight : ℚ
  DetLength : ℚ

/-- The test of the loop of `HitsCRT`: the point is within the active volume,
bounds included. -/
def insideActiveVolume (geom : TpcGeometry) (trajPoint : Vec3) : Bool :=
  let xmin := -2.0 * geom.DetHalfWidth
  let xmax := 2.0 * geom.DetHalfWidth
  let ymin := -geom.DetHalfHeight
  let ymax := geom.DetHalfHeight
  let zmin : ℚ := 0
  let zmax := geom.DetLength
  decide (trajPoint.x ≥ xmin ∧ trajPoint.x ≤ xmax ∧ trajPoint.y ≥ ymin ∧ trajPoint.y ≤ ymax
    ∧ trajPoint.z ≥ zmin ∧ trajPoint.z ≤ zmax)

/-- The loop over the trajectory points of `HitsCRT`, on the pair
`(outsideAV, insideAV)`. -/
def trajectoryFlags (geom : TpcGeometry) : List Vec3 → Bool × Bool → Bool × Bool
  | [], flags => flags
  | trajPoint :: rest, flags =>
    if insideActiveVolume geom trajPoint then trajectoryFlags geom rest (flags.1, true)
    else trajectoryFlags geom rest (true, flags.2)

/-- Function `HitsCRT`. -/
def HitsCRT (geom : TpcGeometry) (part : MCParticle) : Bool :=
  let pdg := part.PdgCode
  if ¬ (pdg = |(13 : Int)| ∨ pdg = |(11 : Int)| ∨ pdg = |(2212 : Int)| ∨ pdg = |(321 : Int)|
      ∨ pdg = |(211 : Int)|) then false
  else
    let flags := trajectoryFlags geom part.trajectory (false, false)
    if flags.2 && flags.1 then true else false

/-! ## Properties of `CrtOverlap` -/

/-- C1. For every two boxes, `CrtOverlap` returns the box of per-axis
`lo = max(min1, min2)` and `hi = min(max1, max2)` when `lo < hi` holds strictly
on at least two of the three axes, and six copies of `-99999` otherwise.  The
boxes `[0,2]x[0,2]x[0,2]` and `[1,3]x[1,3]x[-5,-1]` give `(1,2,1,2,0,-1)`; the
boxes `[0,1]x[0,1]x[0,1]` and `[2,3]x[2,3]x[2,3]` give the sentinel. -/
theorem CrtOverlap_two_of_three_axes :
    (∀ b1 b2 : Limits,
      CrtOverlap b1 b2 = if 2 ≤ strictAxes b1 b2 then intersectionBox b1 b2 else null)
    ∧ CrtOverlap ⟨0, 2, 0, 2, 0, 2⟩ ⟨1, 3, 1, 3, -5, -1⟩ = ⟨1, 2, 1, 2, 0, -1⟩
    ∧ CrtOverlap ⟨0, 1, 0, 1, 0, 1⟩ ⟨2, 3, 2, 3, 2, 3⟩
        = ⟨-99999, -99999, -99999, -99999, -99999, -99999⟩ := by
  refine ⟨?_, by decide, by decide⟩
  intro b1 b2
  unfold CrtOverlap strictAxes intersectionBox
  by_cases hx : max b1.minX b2.minX < min b1.maxX b2.maxX <;>
  by_cases hy : max b1.minY b2.minY < min b1.maxY b2.maxY <;>
  by_cases hz : max b1.minZ b2.minZ < min b1.maxZ b2.maxZ <;>
  simp [hx, hy, hz]

/-- Entry 0 of the result of `CrtOverlap` differs from `-99999` exactly when
two axes have `lo < hi` and the lower x bound of the intersection is not
`-99999` itself. -/
theorem CrtOverlap_minX_ne (b1 b2 : Limits) :
    (CrtOverlap b1 b2).minX ≠ -99999
      ↔ 2 ≤ strictAxes b1 b2 ∧ max b1.minX b2.minX ≠ -99999 := by
  unfold CrtOverlap strictAxes null
  by_cases hx : max b1.minX b2.minX < min b1.maxX b2.maxX <;>
  by_cases hy : max b1.minY b2.minY < min b1.maxY b2.maxY <;>
  by_cases hz : max b1.minZ b2.minZ < min b1.maxZ b2.maxZ <;>
  simp [hx, hy, hz]

/-- The result of `matchedHit` is a hit exactly when the test of the loop
passes. -/
theorem matchedHit_isSome (self : CRTSimHitProducer) (tagger : String) (h h2 : CRTStrip) :
    (matchedHit self tagger h h2).isSome = true
      ↔ (CrtOverlap (ChannelToLimits self h) (ChannelToLimits self h2)).minX ≠ -99999
        ∧ |h.t0 - h2.t0| < self.fTimeCoincidenceLimit := by
  unfold matchedHit
  simp only []
  split <;> simp_all

/-! ## Properties of the overlap matcher -/

/-- C2, as stated, fails: in the small detector placed so that the lower x
bound of both strip boxes is `-99999`, the strip hit of channel 0 is in an
overlapping module, the two strip hits have the same time, their boxes have
`lo < hi` on at least two axes, and yet no hit is recorded for the pair; the
event gives no hit at all. -/
theorem matcher_overlap_counterexample :
    CheckModuleOverlap (smallDetector farShift false) (stripA farShift 0).channel = true
    ∧ |(stripA farShift 0).t0 - (stripB farShift 0).t0|
        < (smallDetector farShift false).fTimeCoincidenceLimit
    ∧ 2 ≤ strictAxes (ChannelToLimits (smallDetector farShift false) (stripA farShift 0))
        (ChannelToLimits (smallDetector farShift false) (stripB farShift 0))
    ∧ matchedHit (smallDetector farShift false) "tagger" (stripA farShift 0)
        (stripB farShift 0) = none
    ∧ produce (smallDetector farShift false)
        (some [pulseA 0, pulseA 0, pulseB 0, pulseB 0]) = some [] := by
  decide!

/-- C2, amended.  For a strip hit `h` of the first plane in an overlapping
module and a strip hit `h2` of the other plane with
`|h.time - h2.time| < timeCoincidenceLimit`, a hit is recorded for `(h, h2)` if
and only if their boxes have `lo < hi` strictly on at least two axes and the
lower x bound `max(minX1, minX2)` of the intersection is not `-99999`; the hits
recorded for `h` are those of the pairs `(h, h2)`, `h2` in the other plane. -/
theorem matcher_overlap_decision (self : CRTSimHitProducer) (tagger : String)
    (other : List CRTStrip) (h h2 : CRTStrip)
    (hmod : CheckModuleOverlap self h.channel = true)
    (htime : |h.t0 - h2.t0| < self.fTimeCoincidenceLimit) :
    ((matchedHit self tagger h h2).isSome = true
      ↔ 2 ≤ strictAxes (ChannelToLimits self h) (ChannelToLimits self h2)
        ∧ max (ChannelToLimits self h).minX (ChannelToLimits self h2).minX ≠ -99999)
    ∧ firstPlaneHits self tagger other h = other.filterMap (matchedHit self tagger h) := by
  refine ⟨?_, by simp [firstPlaneHits, hmod]⟩
  rw [matchedHit_isSome, CrtOverlap_minX_ne]
  simp [htime]

/-- Witness of `matcher_overlap_decision`, in the small detector at the
origin. -/
theorem matcher_overlap_decision_witness :
    (matchedHit (smallDetector 0 false) "tagger" (stripA 0 0) (stripB 0 0)).isSome = true
      ↔ 2 ≤ strictAxes (ChannelToLimits (smallDetector 0 false) (stripA 0 0))
          (ChannelToLimits (smallDetector 0 false) (stripB 0 0))
        ∧ max (ChannelToLimits (smallDetector 0 false) (stripA 0 0)).minX
            (ChannelToLimits (smallDetector 0 false) (stripB 0 0)).minX ≠ -99999 :=
  (matcher_overlap_decision (smallDetector 0 false) "tagger" [] (stripA 0 0) (stripB 0 0)
    (by decide!) (by decide!)).1

/-! ## The partitions hold the strip hits of their key -/

/-- Every element that the inner loop of `std::unique` keeps is an element of
the list it runs over. -/
theorem uniqueAux_subset {α : Type} (pred : α → α → Bool) (l : List α) :
    ∀ (a x : α), x ∈ uniqueAux pred a l → x ∈ l := by
  induction l with
  | nil => intro a x hx; simp [uniqueAux] at hx
  | cons b l ih =>
    intro a x hx
    unfold uniqueAux at hx
    split at hx
    · exact List.mem_cons_of_mem _ (ih a x hx)
    · rcases List.mem_cons.1 hx with h | h
      · exact h ▸ List.mem_cons_self _ _
      · exact List.mem_cons_of_mem _ (ih b x h)

/-- Every element kept by `std::unique` is an element of its input. -/
theorem std_unique_subset {α : Type} (pred : α → α → Bool) (l : List α) (x : α)
    (hx : x ∈ std_unique pred l) : x ∈ l := by
  cases l with
  | nil => simp [std_unique] at hx
  | cons a l =>
    rcases List.mem_cons.1 hx with h | h
    · exact h ▸ List.mem_cons_self _ _
    · exact List.mem_cons_of_mem _ (uniqueAux_subset pred l a x h)

/-- Every strip hit that is left in a partition was in it before. -/
theorem dedupStrips_subset (l : List CRTStrip) (x : CRTStrip) (hx : x ∈ dedupStrips l) :
    x ∈ l :=
  (List.perm_insertionSort notAfter l).mem_iff.1 (std_unique_subset uniquePred _ x hx)

/-- The statement `taggerStrips[k].push_back(s)` keeps the property that every
strip hit stored under a key has this key as its tagger, when `s` has tagger
`k`. -/
theorem pushBack_tagged (m : TaggerStrips) (s : CRTStrip)
    (hm : ∀ e ∈ m, ∀ x ∈ e.2, x.tagger = e.1) :
    ∀ e ∈ pushBack m s.tagger s, ∀ x ∈ e.2, x.tagger = e.1 := by
  induction m with
  | nil =>
    intro e he x hx
    simp [pushBack] at he
    subst he
    simp at hx
    simp [hx]
  | cons e0 rest ih =>
    obtain ⟨k0, v0⟩ := e0
    have h0 := hm (k0, v0) (List.mem_cons_self _ _)
    have hrest : ∀ e ∈ rest, ∀ x ∈ e.2, x.tagger = e.1 :=
      fun e he => hm e (List.mem_cons_of_mem _ he)
    intro e he x hx
    unfold pushBack at he
    split_ifs at he with hk hlt
    · rcases List.mem_cons.1 he with h | h
      · subst h
        rcases List.mem_append.1 hx with hx | hx
        · exact h0 x hx
        · simp at hx
          simp [hx, hk]
      · exact hrest e h x hx
    · rcases List.mem_cons.1 he with h | h
      · subst h
        simp at hx
        simp [hx]
      · exact hm e h x hx
    · rcases List.mem_cons.1 he with h | h
      · subst h
        exact h0 x hx
      · exact ih hrest e h x hx

/-- After the pulse loop and the removal of duplicates, every strip hit of the
partition stored under a key has this key as its tagger. -/
theorem partition_tagged (hits : List CRTStrip) :
    ∀ e ∈ dedupAll (groupStrips hits), ∀ x ∈ e.2, x.tagger = e.1 := by
  have hfold : ∀ (l : List CRTStrip) (m : TaggerStrips),
      (∀ e ∈ m, ∀ x ∈ e.2, x.tagger = e.1) →
      ∀ e ∈ l.foldl (fun m h => pushBack m h.tagger h) m, ∀ x ∈ e.2, x.tagger = e.1 := by
    intro l
    induction l with
    | nil => intro m hm; simpa using hm
    | cons s l ih => intro m hm; exact ih _ (pushBack_tagged m s hm)
  intro e he x hx
  obtain ⟨e0, he0, rfl⟩ := List.mem_map.1 he
  exact hfold hits [] (by simp) e0 he0 x (dedupStrips_subset _ x hx)

/-- C4. For every matched pair `(h, h2)`, `h` in a partition of the map after
the removal of duplicates, with `o = CrtOverlap` of their two boxes, the hit
recorded is `FillCrtHit` applied to the position
`((o.minX+o.maxX)/2, (o.minY+o.maxY)/2, (o.minZ+o.maxZ)/2)`, the per-axis error
`|hi - lo|/2`, the time `(h.time + h2.time)/2` and the tagger name of `h`. -/
theorem matched_hit_content (self : CRTSimHitProducer) (hits : List CRTStrip)
    (tagStrip : (String × Nat) × List CRTStrip)
    (hentry : tagStrip ∈ dedupAll (groupStrips hits))
    (h h2 : CRTStrip) (hh : h ∈ tagStrip.2) (hit : CRTHit)
    (hm : matchedHit self tagStrip.1.1 h h2 = some hit) :
    hit = FillCrtHit [0] [(0, [(0, 0)])] 0 ((h.t0 + h2.t0) / 2)
      (((CrtOverlap (ChannelToLimits self h) (ChannelToLimits self h2)).minX
        + (CrtOverlap (ChannelToLimits self h) (ChannelToLimits self h2)).maxX) / 2)
      (|(CrtOverlap (ChannelToLimits self h) (ChannelToLimits self h2)).maxX
        - (CrtOverlap (ChannelToLimits self h) (ChannelToLimits self h2)).minX| / 2)
      (((CrtOverlap (ChannelToLimits self h) (ChannelToLimits self h2)).minY
        + (CrtOverlap (ChannelToLimits self h) (ChannelToLimits self h2)).maxY) / 2)
      (|(CrtOverlap (ChannelToLimits self h) (ChannelToLimits self h2)).maxY
        - (CrtOverlap (ChannelToLimits self h) (ChannelToLimits self h2)).minY| / 2)
      (((CrtOverlap (ChannelToLimits self h) (ChannelToLimits self h2)).minZ
        + (CrtOverlap (ChannelToLimits self h) (ChannelToLimits self h2)).maxZ) / 2)
      (|(CrtOverlap (ChannelToLimits self h) (ChannelToLimits self h2)).maxZ
        - (CrtOverlap (ChannelToLimits self h) (ChannelToLimits self h2)).minZ| / 2)
      h.tagger.1 := by
  have htag : h.tagger = tagStrip.1 := partition_tagged hits tagStrip hentry h hh
  unfold matchedHit at hm
  simp only [] at hm
  split at hm
  · rw [htag]
    have h2pos : |(2 : ℚ)| = 2 := abs_of_pos (by norm_num)
    simpa [abs_div, h2pos] using (Option.some.inj hm).symm
  · exact absurd hm (by simp)

/-- Witness of `matched_hit_content`: the event of the small detector with one
strip hit in each plane. -/
theorem matched_hit_content_witness :
    FillCrtHit [0] [(0, [(0, 0)])] 0 0 0 (stripError 1) 0 1 (1 / 2) (1 / 2) "tagger"
      = FillCrtHit [0] [(0, [(0, 0)])] 0 (((stripA 0 0).t0 + (stripB 0 0).t0) / 2)
        (((CrtOverlap (ChannelToLimits (smallDetector 0 false) (stripA 0 0))
            (ChannelToLimits (smallDetector 0 false) (stripB 0 0))).minX
          + (CrtOverlap (ChannelToLimits (smallDetector 0 false) (stripA 0 0))
            (ChannelToLimits (smallDetector 0 false) (stripB 0 0))).maxX) / 2)
        (|(CrtOverlap (ChannelToLimits (smallDetector 0 false) (stripA 0 0))
            (ChannelToLimits (smallDetector 0 false) (stripB 0 0))).maxX
          - (CrtOverlap (ChannelToLimits (smallDetector 0 false) (stripA 0 0))
            (ChannelToLimits (smallDetector 0 false) (stripB 0 0))).minX| / 2)
        (((CrtOverlap (ChannelToLimits (smallDetector 0 false) (stripA 0 0))
            (ChannelToLimits (smallDetector 0 false) (stripB 0 0))).minY
          + (CrtOverlap (ChannelToLimits (smallDetector 0 false) (stripA 0 0))
            (ChannelToLimits (smallDetector 0 false) (stripB 0 0))).maxY) / 2)
        (|(CrtOverlap (ChannelToLimits (smallDetector 0 false) (stripA 0 0))
            (ChannelToLimits (smallDetector 0 false) (stripB 0 0))).maxY
          - (CrtOverlap (ChannelToLimits (smallDetector 0 false) (stripA 0 0))
            (ChannelToLimits (smallDetector 0 false) (stripB 0 0))).minY| / 2)
        (((CrtOverlap (ChannelToLimits (smallDetector 0 false) (stripA 0 0))
            (ChannelToLimits (smallDetector 0 false) (stripB 0 0))).minZ
          + (CrtOverlap (ChannelToLimits (smallDetector 0 false) (stripA 0 0))
            (ChannelToLimits (smallDetector 0 false) (stripB 0 0))).maxZ) / 2)
        (|(CrtOverlap (ChannelToLimits (smallDetector 0 false) (stripA 0 0))
            (ChannelToLimits (smallDetector 0 false) (stripB 0 0))).maxZ
          - (CrtOverlap (ChannelToLimits (smallDetector 0 false) (stripA 0 0))
            (ChannelToLimits (smallDetector 0 false) (stripB 0 0))).minZ| / 2)
        (stripA 0 0).tagger.1 :=
  matched_hit_content (smallDetector 0 false) [stripA 0 0, stripB 0 0]
    (("tagger", 0), [stripA 0 0]) (by decide!) (stripA 0 0) (stripB 0 0) (by decide!) _
    (by decide!)

/-! ## Sort and removal of duplicates -/

/-- The comparison of the sort is the strict lexicographic order on
`(time, channel)`. -/
theorem sortComp_iff_lex (a b : CRTStrip) :
    sortComp a b ↔ toLex (stripKey a) < toLex (stripKey b) := by
  simp [sortComp, stripKey, Prod.Lex.lt_iff]

/-- Relation `notAfter` is the lexicographic order on `(time, channel)`. -/
theorem notAfter_iff_lex (a b : CRTStrip) :
    notAfter a b ↔ toLex (stripKey a) ≤ toLex (stripKey b) := by
  rw [notAfter, sortComp_iff_lex, not_lt]

/-- The predicate of `std::unique` holds for the strip hits of equal
`(time, channel)`. -/
theorem uniquePred_iff (a b : CRTStrip) : uniquePred a b = true ↔ stripKey a = stripKey b := by
  simp [uniquePred, stripKey, Prod.ext_iff]

instance notAfterTotal : IsTotal CRTStrip notAfter :=
  ⟨fun a b => by simpa only [notAfter_iff_lex] using le_total _ _⟩

instance notAfterTrans : IsTrans CRTStrip notAfter :=
  ⟨fun a b c hab hbc => by
    simp only [notAfter_iff_lex] at hab hbc ⊢
    exact le_trans hab hbc⟩

instance sortCompTrans : IsTrans CRTStrip sortComp :=
  ⟨fun a b c hab hbc => by
    simp only [sortComp_iff_lex] at hab hbc ⊢
    exact lt_trans hab hbc⟩

/-- The sort gives a list in which no element is below an earlier one. -/
theorem sortStrips_sorted (l : List CRTStrip) : (sortStrips l).Sorted notAfter :=
  List.sorted_insertionSort notAfter l

/-- The sort gives a permutation of its input. -/
theorem sortStrips_perm (l : List CRTStrip) : (sortStrips l).Perm l :=
  List.perm_insertionSort notAfter l

/-- On a sorted list, what the inner loop of `std::unique` keeps after `a` is a
strictly ascending chain from `a`. -/
theorem uniqueAux_chain (l : List CRTStrip) :
    ∀ a : CRTStrip, (a :: l).Sorted notAfter →
      List.Chain sortComp a (uniqueAux uniquePred a l) := by
  induction l with
  | nil => intro a _; simp [uniqueAux]
  | cons b l ih =>
    intro a hs
    have hab : notAfter a b := List.rel_of_sorted_cons hs b (List.mem_cons_self _ _)
    have hbl : (b :: l).Sorted notAfter := hs.of_cons
    have hal : (a :: l).Sorted notAfter :=
      List.sorted_cons.2 ⟨fun c hc => List.rel_of_sorted_cons hs c (List.mem_cons_of_mem _ hc),
        hbl.of_cons⟩
    unfold uniqueAux
    split
    · exact ih a hal
    · rename_i hne
      refine List.Chain.cons ?_ (ih b hbl)
      rw [sortComp_iff_lex]
      rw [notAfter_iff_lex] at hab
      refine lt_of_le_of_ne hab fun heq => hne ?_
      exact (uniquePred_iff a b).2 (toLex.injective heq)

/-- On any sorted list, `std::unique` leaves a strictly ascending list. -/
theorem std_unique_sorted (s : List CRTStrip) (hs : s.Sorted notAfter) :
    (std_unique uniquePred s).Sorted sortComp := by
  cases s with
  | nil => simp [std_unique]
  | cons a l =>
    have hchain : List.Chain' sortComp (a :: uniqueAux uniquePred a l) := uniqueAux_chain l a hs
    exact List.chain'_iff_pairwise.1 hchain

/-- A strictly ascending list of strip hits has pairwise distinct
`(time, channel)`. -/
theorem keys_nodup_of_sorted (d : List CRTStrip) (hd : d.Sorted sortComp) :
    (d.map stripKey).Nodup := by
  rw [List.Nodup, List.pairwise_map]
  refine List.Pairwise.imp ?_ hd
  intro a b hab heq
  rw [sortComp_iff_lex, heq] at hab
  exact lt_irrefl _ hab

/-- C5. After the sort and the removal of duplicates, the strip hits of a
partition are strictly increasing in the lexicographic order on
`(time, channel)`, every earlier one below every later one: the list is sorted
for the comparison of the sort and no two of its elements have the same
`(time, channel)`.  This holds for every order in which `std::sort` may leave
the partition (any sorted permutation of it). -/
theorem dedup_strictly_ascending (l : List CRTStrip) :
    ((dedupStrips l).map fun s => toLex (stripKey s)).Sorted (· < ·)
    ∧ (dedupStrips l).Sorted sortComp
    ∧ ((dedupStrips l).map stripKey).Nodup
    ∧ ∀ s : List CRTStrip, s.Perm l → s.Sorted notAfter →
        (std_unique uniquePred s).Sorted sortComp
          ∧ ((std_unique uniquePred s).map stripKey).Nodup := by
  have hd : (dedupStrips l).Sorted sortComp := std_unique_sorted _ (sortStrips_sorted l)
  refine ⟨?_, hd, keys_nodup_of_sorted _ hd, fun s _ hs =>
    ⟨std_unique_sorted s hs, keys_nodup_of_sorted _ (std_unique_sorted s hs)⟩⟩
  rw [List.Sorted, List.pairwise_map]
  exact List.Pairwise.imp (fun {a b} hab => (sortComp_iff_lex a b).1 hab) hd

/-- Every element of `a :: l` has its `(time, channel)` among those that
`std::unique` keeps. -/
theorem uniqueAux_keys (l : List CRTStrip) :
    ∀ a x : CRTStrip, x ∈ a :: l →
      ∃ y ∈ a :: uniqueAux uniquePred a l, stripKey y = stripKey x := by
  induction l with
  | nil =>
    intro a x hx
    simp at hx
    exact ⟨a, by simp [uniqueAux], by rw [hx]⟩
  | cons b l ih =>
    intro a x hx
    unfold uniqueAux
    rcases List.mem_cons.1 hx with rfl | hx
    · exact ⟨x, List.mem_cons_self _ _, rfl⟩
    · split
      · rename_i heq
        rcases List.mem_cons.1 hx with rfl | hxl
        · exact ⟨a, List.mem_cons_self _ _, (uniquePred_iff a x).1 heq⟩
        · exact ih a x (List.mem_cons_of_mem _ hxl)
      · obtain ⟨y, hy, hk⟩ := ih b x hx
        exact ⟨y, List.mem_cons_of_mem _ hy, hk⟩

/-- Every element of a list has its `(time, channel)` among those that
`std::unique` keeps. -/
theorem std_unique_keys (s : List CRTStrip) (x : CRTStrip) (hx : x ∈ s) :
    ∃ y ∈ std_unique uniquePred s, stripKey y = stripKey x := by
  cases s with
  | nil => simp at hx
  | cons a l => exact uniqueAux_keys l a x hx

/-- On a sorted list with pairwise distinct `(time, channel)`, the inner loop
of `std::unique` keeps everything. -/
theorem uniqueAux_of_nodup (l : List CRTStrip) :
    ∀ a : CRTStrip, ((a :: l).map stripKey).Nodup → (a :: l).Sorted notAfter →
      uniqueAux uniquePred a l = l := by
  induction l with
  | nil => intro a _ _; rfl
  | cons b l ih =>
    intro a hn hs
    have hne : ¬ uniquePred a b = true := by
      rw [uniquePred_iff]
      intro heq
      simp [heq] at hn
    have hn2 : ((b :: l).map stripKey).Nodup := by
      simp only [List.map_cons, List.nodup_cons] at hn ⊢
      exact hn.2
    unfold uniqueAux
    simp only [hne, if_false, Bool.false_eq_true]
    rw [ih b hn2 hs.of_cons]

/-- C6. For every partition, the `(time, channel)` pairs after the removal of
duplicates are those before it, every strip hit left is one of the partition,
and the number left is the number of distinct `(time, channel)` pairs; when all
strip hits of the partition differ in time or in channel, all of them are kept. -/
theorem dedup_removes_only_duplicates (l : List CRTStrip) :
    (∀ k : ℚ × Nat, k ∈ (dedupStrips l).map stripKey ↔ k ∈ l.map stripKey)
    ∧ (∀ s ∈ dedupStrips l, s ∈ l)
    ∧ (dedupStrips l).length = ((l.map stripKey).dedup).length
    ∧ ((l.map stripKey).Nodup → (dedupStrips l).Perm l) := by
  have hkeys : ∀ k : ℚ × Nat, k ∈ (dedupStrips l).map stripKey ↔ k ∈ l.map stripKey := by
    intro k
    constructor
    · intro hk
      obtain ⟨s, hs, rfl⟩ := List.mem_map.1 hk
      exact List.mem_map_of_mem _ (dedupStrips_subset l s hs)
    · intro hk
      obtain ⟨x, hx, rfl⟩ := List.mem_map.1 hk
      obtain ⟨y, hy, hyx⟩ := std_unique_keys (sortStrips l) x ((sortStrips_perm l).mem_iff.2 hx)
      exact hyx ▸ List.mem_map_of_mem _ hy
  refine ⟨hkeys, dedupStrips_subset l, ?_, ?_⟩
  · have hnodup : ((dedupStrips l).map stripKey).Nodup :=
      keys_nodup_of_sorted _ (std_unique_sorted _ (sortStrips_sorted l))
    have hfin : ((dedupStrips l).map stripKey).toFinset = (l.map stripKey).toFinset := by
      ext k
      simp only [List.mem_toFinset]
      exact hkeys k
    have hperm := List.toFinset_eq_iff_perm_dedup.1 hfin
    rw [hnodup.dedup] at hperm
    simpa using hperm.length_eq
  · intro hn
    have hperm := sortStrips_perm l
    have hn2 : ((sortStrips l).map stripKey).Nodup := (hperm.map stripKey).nodup_iff.2 hn
    have hs := sortStrips_sorted l
    have heq : dedupStrips l = sortStrips l := by
      unfold dedupStrips
      cases hsl : sortStrips l with
      | nil => rfl
      | cons a t =>
        rw [hsl] at hn2 hs
        simp only [std_unique]
        rw [uniqueAux_of_nodup t a hn2 hs]
    rw [heq]
    exact hperm

/-! ## Properties of the pulse loop -/

/-- The readout-window test passes for every pulse when the gate is off. -/
theorem passesReadoutWindow_of_off (self : CRTSimHitProducer) (p : CRTData)
    (hgate : self.fUseReadoutWindow = false) : passesReadoutWindow self p = true := by
  simp [passesReadoutWindow, hgate]

/-- On a collection of even length the pulse loop ends without error, and
builds one strip hit for every pair whose first pulse passes the
readout-window test, in the order of the pairs. -/
theorem buildStripHits_even (self : CRTSimHitProducer) :
    ∀ (n : Nat) (l : List CRTData), l.length = 2 * n →
      buildStripHits self l
        = some (((pulsePairs l).filter fun pq => passesReadoutWindow self pq.1).map
            fun pq => makeStripHit self pq.1 pq.2) := by
  intro n
  induction n with
  | zero =>
    intro l hl
    have : l = [] := List.length_eq_zero.1 (by simpa using hl)
    subst this
    simp [buildStripHits, pulsePairs]
  | succ n ih =>
    intro l hl
    match l, hl with
    | p1 :: p2 :: rest, hl =>
      have hrest : rest.length = 2 * n := by
        simp only [List.length_cons] at hl
        omega
      by_cases hp : passesReadoutWindow self p1 = true
      · simp [buildStripHits, pulsePairs, hp, ih rest hrest]
      · simp [buildStripHits, pulsePairs, hp, ih rest hrest]

/-- With the gate off, a collection of odd length makes the pulse loop read
`crtList[i+1]` past the end. -/
theorem buildStripHits_odd (self : CRTSimHitProducer)
    (hgate : self.fUseReadoutWindow = false) :
    ∀ (n : Nat) (l : List CRTData), l.length = 2 * n + 1 → buildStripHits self l = none := by
  intro n
  induction n with
  | zero =>
    intro l hl
    match l, hl with
    | [p], _ => simp [buildStripHits, passesReadoutWindow_of_off self p hgate]
  | succ n ih =>
    intro l hl
    match l, hl with
    | p1 :: p2 :: rest, hl =>
      have hrest : rest.length = 2 * n + 1 := by
        simp only [List.length_cons] at hl
        omega
      simp [buildStripHits, passesReadoutWindow_of_off self p1 hgate, ih rest hrest]

/-- C7, on the code: a collection of odd length is not processed to the end.
With one pulse and the gate off, the pulse loop reads `crtList[1]`, which does
not exist, and `produce` gives no result; the same holds, with the gate off,
for every collection of odd length. -/
theorem odd_length_reads_past_end :
    buildStripHits (smallDetector 0 false) [pulseA 0] = none
    ∧ produce (smallDetector 0 false) (some [pulseA 0]) = none
    ∧ ∀ (self : CRTSimHitProducer) (l : List CRTData), self.fUseReadoutWindow = false →
        l.length % 2 = 1 → buildStripHits self l = none ∧ produce self (some l) = none := by
  refine ⟨by decide, by decide, fun self l hgate hodd => ?_⟩
  have hb : buildStripHits self l = none :=
    buildStripHits_odd self hgate (l.length / 2) l (by omega)
  exact ⟨hb, by simp [produce, hb]⟩

/-- The `k`-th pair of a collection of `2n` pulses is made of the pulses of
index `2k` and `2k+1`, and there are `n` pairs. -/
theorem pulsePairs_index :
    ∀ (n : Nat) (l : List CRTData), l.length = 2 * n →
      (pulsePairs l).length = n
      ∧ ∀ k, k < n → ∃ p1 p2, l[2 * k]? = some p1 ∧ l[2 * k + 1]? = some p2
          ∧ (pulsePairs l)[k]? = some (p1, p2) := by
  intro n
  induction n with
  | zero =>
    intro l hl
    have : l = [] := List.length_eq_zero.1 (by simpa using hl)
    subst this
    exact ⟨rfl, fun k hk => absurd hk (Nat.not_lt_zero k)⟩
  | succ n ih =>
    intro l hl
    match l, hl with
    | p1 :: p2 :: rest, hl =>
      have hrest : rest.length = 2 * n := by
        simp only [List.length_cons] at hl
        omega
      obtain ⟨hlen, hidx⟩ := ih rest hrest
      refine ⟨by simp [pulsePairs, hlen], fun k hk => ?_⟩
      cases k with
      | zero => exact ⟨p1, p2, by simp, by simp, by simp [pulsePairs]⟩
      | succ k =>
        obtain ⟨q1, q2, h1, h2, h3⟩ := hidx k (by omega)
        refine ⟨q1, q2, ?_, ?_, ?_⟩
        · have : 2 * (k + 1) = (2 * k) + 1 + 1 := by ring
          rw [this]
          simpa using h1
        · have : 2 * (k + 1) + 1 = (2 * k + 1) + 1 + 1 := by ring
          rw [this]
          simpa using h2
        · simpa [pulsePairs] using h3

/-- C8. For every collection of `n` pulses, `n` even, with the readout gate
off, the pulse loop builds exactly `n/2` strip hits, the `k`-th from the pulses
of index `2k` and `2k+1` only, with time `(T0[2k]/8 + T0[2k+1]/8)/2` as an
exact quotient, the channel of pulse `2k`, total signal
`(ADC[2k]-QPed)/QSlope + (ADC[2k+1]-QPed)/QSlope` and tagger
`ChannelToTagger` of the channel of pulse `2k`. -/
theorem strip_builder_pairing (self : CRTSimHitProducer) (l : List CRTData)
    (hgate : self.fUseReadoutWindow = false) (heven : l.length % 2 = 0) :
    ∃ hits : List CRTStrip, buildStripHits self l = some hits
      ∧ hits.length = l.length / 2
      ∧ ∀ k, k < l.length / 2 → ∃ p1 p2 hit,
          l[2 * k]? = some p1 ∧ l[2 * k + 1]? = some p2
          ∧ hits[k]? = some hit
          ∧ hit = makeStripHit self p1 p2
          ∧ hit.t0 = ((p1.T0 : ℚ) / 8 + (p2.T0 : ℚ) / 8) / 2
          ∧ hit.channel = p1.Channel
          ∧ hit.pes = ((p1.ADC : ℚ) - self.fQPed) / self.fQSlope
              + ((p2.ADC : ℚ) - self.fQPed) / self.fQSlope
          ∧ hit.tagger = ChannelToTagger self p1.Channel := by
  have hlen : l.length = 2 * (l.length / 2) := by omega
  obtain ⟨hn, hidx⟩ := pulsePairs_index (l.length / 2) l hlen
  have hfilter : (pulsePairs l).filter (fun pq => passesReadoutWindow self pq.1)
      = pulsePairs l := by
    rw [List.filter_eq_self]
    intro pq _
    exact passesReadoutWindow_of_off self pq.1 hgate
  refine ⟨(pulsePairs l).map fun pq => makeStripHit self pq.1 pq.2, ?_, ?_, ?_⟩
  · rw [buildStripHits_even self (l.length / 2) l hlen, hfilter]
  · simp [hn]
  · intro k hk
    obtain ⟨p1, p2, h1, h2, h3⟩ := hidx k hk
    refine ⟨p1, p2, makeStripHit self p1 p2, h1, h2, ?_, rfl, rfl, rfl, rfl, rfl⟩
    simp [List.getElem?_map, h3]

/-- Witness of `strip_builder_pairing`: four pulses in the small detector, gate
off. -/
theorem strip_builder_pairing_witness :
    ∃ hits : List CRTStrip,
      buildStripHits (smallDetector 0 false) [pulseA 0, pulseA 8, pulseB 16, pulseB 24]
        = some hits
      ∧ hits.length = [pulseA 0, pulseA 8, pulseB 16, pulseB 24].length / 2
      ∧ ∀ k, k < [pulseA 0, pulseA 8, pulseB 16, pulseB 24].length / 2 → ∃ p1 p2 hit,
          [pulseA 0, pulseA 8, pulseB 16, pulseB 24][2 * k]? = some p1
          ∧ [pulseA 0, pulseA 8, pulseB 16, pulseB 24][2 * k + 1]? = some p2
          ∧ hits[k]? = some hit
          ∧ hit = makeStripHit (smallDetector 0 false) p1 p2
          ∧ hit.t0 = ((p1.T0 : ℚ) / 8 + (p2.T0 : ℚ) / 8) / 2
          ∧ hit.channel = p1.Channel
          ∧ hit.pes = ((p1.ADC : ℚ) - (smallDetector 0 false).fQPed)
                / (smallDetector 0 false).fQSlope
              + ((p2.ADC : ℚ) - (smallDetector 0 false).fQPed)
                / (smallDetector 0 false).fQSlope
          ∧ hit.tagger = ChannelToTagger (smallDetector 0 false) p1.Channel :=
  strip_builder_pairing (smallDetector 0 false) [pulseA 0, pulseA 8, pulseB 16, pulseB 24]
    (by decide) (by decide)

/-- C9. The first pulse of a pair passes the readout-window test if and only if
the gate is off or `-driftTimeTicks <= t1 <= readoutWindow`, `t1 = T0/8` of this
pulse, both bounds included; the second pulse is not examined.  The pair yields
a strip hit exactly when the test passes, and a pair that fails it leaves the
strip hits and the result of `produce` as they are without the pair.  On a
collection of even length the strip hits built are those of the pairs that pass
the test. -/
theorem readout_gate (self : CRTSimHitProducer) (p1 p2 : CRTData) (rest l : List CRTData) :
    (passesReadoutWindow self p1 = true
      ↔ (self.fUseReadoutWindow = true →
          -driftTimeTicks self ≤ tickTime p1 ∧ tickTime p1 ≤ readoutWindow self))
    ∧ (self.fUseReadoutWindow = false → passesReadoutWindow self p1 = true)
    ∧ (passesReadoutWindow self p1 = true →
        buildStripHits self (p1 :: p2 :: rest)
          = (buildStripHits self rest).map fun hits => makeStripHit self p1 p2 :: hits)
    ∧ (passesReadoutWindow self p1 = false →
        buildStripHits self (p1 :: p2 :: rest) = buildStripHits self rest
        ∧ produce self (some (p1 :: p2 :: rest)) = produce self (some rest))
    ∧ (l.length % 2 = 0 →
        buildStripHits self l
          = some (((pulsePairs l).filter fun pq => passesReadoutWindow self pq.1).map
              fun pq => makeStripHit self pq.1 pq.2)) := by
  refine ⟨?_, passesReadoutWindow_of_off self p1, ?_, ?_, ?_⟩
  · unfold passesReadoutWindow
    cases hg : self.fUseReadoutWindow <;> simp
  · intro hp
    simp [buildStripHits, hp]
  · intro hp
    have hb : buildStripHits self (p1 :: p2 :: rest) = buildStripHits self rest := by
      simp [buildStripHits, hp]
    exact ⟨hb, by simp [produce, hb]⟩
  · intro heven
    exact buildStripHits_even self (l.length / 2) l (by omega)

/-! ## Range of the position estimate -/

/-- The position is `width/2` times `1 + atan(log(npe2/npe1))`. -/
theorem stripPosition_real (width npe1 npe2 : ℝ) :
    stripPosition Real.arctan Real.log width npe1 npe2
      = (width / 2) * (1 + Real.arctan (Real.log (npe2 / npe1))) := by
  unfold stripPosition
  rw [one_mul]
  ring

/-- The arc tangent of a positive number is below the number. -/
theorem arctan_lt_self_of_pos (y : ℝ) (hy : 0 < y) : Real.arctan y < y := by
  have hpos : 0 < Real.arctan y := by
    have := Real.arctan_strictMono hy
    rwa [Real.arctan_zero] at this
  have := Real.lt_tan hpos (Real.arctan_lt_pi_div_two y)
  rwa [Real.tan_arctan] at this

/-- The arc tangent of `log 81` is above 1. -/
theorem one_lt_arctan_log_81 : 1 < Real.arctan (Real.log 81) := by
  have h3 : Real.exp 1 < 3 := lt_trans Real.exp_one_lt_d9 (by norm_num)
  have hlog3 : 1 < Real.log 3 := (Real.lt_log_iff_exp_lt (by norm_num)).2 h3
  have hlog : (4 : ℝ) < Real.log 81 := by
    have h81 : (81 : ℝ) = 3 ^ 4 := by norm_num
    rw [h81, Real.log_pow]
    push_cast
    linarith
  have hinv : Real.arctan (4 : ℝ)⁻¹ = Real.pi / 2 - Real.arctan 4 :=
    Real.arctan_inv_of_pos (by norm_num)
  have hsmall : Real.arctan (4 : ℝ)⁻¹ < (4 : ℝ)⁻¹ := arctan_lt_self_of_pos _ (by norm_num)
  have hpi := Real.pi_gt_three
  have h4 : 1 < Real.arctan 4 := by
    have : (4 : ℝ)⁻¹ = 1 / 4 := by norm_num
    rw [this] at hsmall hinv
    linarith
  exact lt_trans h4 (Real.arctan_strictMono hlog)

/-- C10, as stated, fails: for a strip of width 2 and photoelectron counts
`npe1 = 1`, `npe2 = 81` (both positive), the position
`(width/2)*atan(log(npe2/npe1)) + width/2` is above the width. -/
theorem position_range_counterexample :
    (0 : ℝ) ≤ 2 ∧ (0 : ℝ) < 1 ∧ (0 : ℝ) < 81
    ∧ ¬ (0 ≤ stripPosition Real.arctan Real.log 2 1 81
          ∧ stripPosition Real.arctan Real.log 2 1 81 ≤ 2) := by
  refine ⟨by norm_num, by norm_num, by norm_num, fun h => ?_⟩
  have hx := h.2
  rw [stripPosition_real] at hx
  have h1 := one_lt_arctan_log_81
  have hdiv : (81 : ℝ) / 1 = 81 := by norm_num
  rw [hdiv] at hx
  linarith

/-- C10, amended.  For every strip width `>= 0` and every pulse pair with
`npe1 > 0` and `npe2 > 0`, the position
`x = (width/2)*atan(log(npe2/npe1)) + width/2` satisfies
`(1 - pi/2)*width/2 <= x <= (1 + pi/2)*width/2`; for a width `> 0` it lies in
`[0, width]` exactly when `|atan(log(npe2/npe1))| <= 1`. -/
theorem position_range (width npe1 npe2 : ℝ) (hw : 0 ≤ width) (h1 : 0 < npe1)
    (h2 : 0 < npe2) :
    (1 - Real.pi / 2) * (width / 2) ≤ stripPosition Real.arctan Real.log width npe1 npe2
    ∧ stripPosition Real.arctan Real.log width npe1 npe2 ≤ (1 + Real.pi / 2) * (width / 2)
    ∧ (0 < width →
        ((0 ≤ stripPosition Real.arctan Real.log width npe1 npe2
            ∧ stripPosition Real.arctan Real.log width npe1 npe2 ≤ width)
          ↔ |Real.arctan (Real.log (npe2 / npe1))| ≤ 1)) := by
  have _hratio : 0 < npe2 / npe1 := div_pos h2 h1
  have hlo := Real.neg_pi_div_two_lt_arctan (Real.log (npe2 / npe1))
  have hhi := Real.arctan_lt_pi_div_two (Real.log (npe2 / npe1))
  have hw2 : 0 ≤ width / 2 := by linarith
  rw [stripPosition_real]
  refine ⟨?_, ?_, fun hpos => ?_⟩
  · rw [mul_comm (1 - Real.pi / 2)]
    exact mul_le_mul_of_nonneg_left (by linarith) hw2
  · rw [mul_comm (1 + Real.pi / 2)]
    exact mul_le_mul_of_nonneg_left (by linarith) hw2
  · have hw2pos : 0 < width / 2 := by linarith
    rw [abs_le]
    constructor
    · rintro ⟨ha, hb⟩
      constructor
      · by_contra hneg
        push_neg at hneg
        have : width / 2 * (1 + Real.arctan (Real.log (npe2 / npe1))) < 0 :=
          mul_neg_of_pos_of_neg hw2pos (by linarith)
        linarith
      · by_contra hneg
        push_neg at hneg
        have : width / 2 * 2 < width / 2 * (1 + Real.arctan (Real.log (npe2 / npe1))) :=
          mul_lt_mul_of_pos_left (by linarith) hw2pos
        linarith
    · rintro ⟨ha, hb⟩
      constructor
      · exact mul_nonneg hw2 (by linarith)
      · have : width / 2 * (1 + Real.arctan (Real.log (npe2 / npe1))) ≤ width / 2 * 2 :=
          mul_le_mul_of_nonneg_left (by linarith) hw2
        linarith

/-- Witness of `position_range`: a strip of width 2 and equal photoelectron
counts. -/
theorem position_range_witness :
    (1 - Real.pi / 2) * ((2 : ℝ) / 2) ≤ stripPosition Real.arctan Real.log 2 1 1
    ∧ stripPosition Real.arctan Real.log 2 1 1 ≤ (1 + Real.pi / 2) * ((2 : ℝ) / 2)
    ∧ ((0 : ℝ) < 2 →
        ((0 ≤ stripPosition Real.arctan Real.log 2 1 1
            ∧ stripPosition Real.arctan Real.log 2 1 1 ≤ 2)
          ↔ |Real.arctan (Real.log ((1 : ℝ) / 1))| ≤ 1)) :=
  position_range 2 1 1 (by norm_num) (by norm_num) (by norm_num)

/-! ## Sign of the uncertainty -/

/-- The position is between `(1 - pi/2)*width/2` and `(1 + pi/2)*width/2`. -/
theorem stripPosition_bounds (width npe1 npe2 : ℝ) (hw : 0 ≤ width) :
    (1 - Real.pi / 2) * (width / 2) ≤ stripPosition Real.arctan Real.log width npe1 npe2
    ∧ stripPosition Real.arctan Real.log width npe1 npe2 ≤ (1 + Real.pi / 2) * (width / 2) := by
  have hlo := Real.neg_pi_div_two_lt_arctan (Real.log (npe2 / npe1))
  have hhi := Real.arctan_lt_pi_div_two (Real.log (npe2 / npe1))
  have hw2 : 0 ≤ width / 2 := by linarith
  rw [stripPosition_real]
  constructor
  · rw [mul_comm (1 - Real.pi / 2)]
    exact mul_le_mul_of_nonneg_left (by linarith) hw2
  · rw [mul_comm (1 + Real.pi / 2)]
    exact mul_le_mul_of_nonneg_left (by linarith) hw2

/-- The uncertainty is not negative for a position between -11 and 16. -/
theorem stripError_nonneg_of_mem (x : ℝ) (h1 : -11 ≤ x) (h2 : x ≤ 16) : 0 ≤ stripError x := by
  unfold stripError normx
  nlinarith [mul_nonneg (sub_nonneg.2 h1) (sub_nonneg.2 h2)]

/-- C11, as stated, fails: for a strip of width 40 and equal photoelectron
counts `npe1 = npe2 = 1` the position is 20 and the uncertainty is negative;
the strip hit that the pulse loop builds in the detector with strips of width
40 from two pulses of charge 1 has a negative `ex`. -/
theorem uncertainty_counterexample :
    (0 : ℝ) < 1
    ∧ stripError (stripPosition Real.arctan Real.log 40 1 1) < 0
    ∧ 0 < npe wideDetector (pulseA 0)
    ∧ (makeStripHit wideDetector (pulseA 0) (pulseA 0)).x = 20
    ∧ (makeStripHit wideDetector (pulseA 0) (pulseA 0)).ex < 0 := by
  refine ⟨by norm_num, ?_, by decide!, by decide!, by decide!⟩
  have hx : stripPosition Real.arctan Real.log 40 1 1 = 20 := by
    rw [stripPosition_real]
    norm_num
  rw [hx]
  unfold stripError normx
  norm_num

/-- C11, amended.  For every strip of width between 0 and 12 and every pulse
pair with `npe1 > 0` and `npe2 > 0`, the uncertainty
`ex = 1.92380 + 0.0147186*normx - 0.00529446*normx^2`, with
`normx = x + 0.344677*x - 1.92045` and `x` the position of the strip hit, is not
negative; `ex` is not negative whenever `x` is between -11 and 16. -/
theorem uncertainty_nonneg (width npe1 npe2 : ℝ) (hw : 0 ≤ width) (hw12 : width ≤ 12)
    (h1 : 0 < npe1) (h2 : 0 < npe2) :
    0 ≤ stripError (stripPosition Real.arctan Real.log width npe1 npe2)
    ∧ stripError (stripPosition Real.arctan Real.log width npe1 npe2)
        = 1.92380 + 0.0147186 * normx (stripPosition Real.arctan Real.log width npe1 npe2)
          - 0.00529446 * normx (stripPosition Real.arctan Real.log width npe1 npe2) ^ 2
    ∧ ∀ x : ℝ, -11 ≤ x → x ≤ 16 → 0 ≤ stripError x := by
  have _hratio : 0 < npe2 / npe1 := div_pos h2 h1
  obtain ⟨hlo, hhi⟩ := stripPosition_bounds width npe1 npe2 hw
  have hpi := Real.pi_gt_three
  have hpi2 := Real.pi_lt_d2
  refine ⟨stripError_nonneg_of_mem _ ?_ ?_, ?_, stripError_nonneg_of_mem⟩
  · have : (1 - Real.pi / 2) * (12 / 2) ≤ (1 - Real.pi / 2) * (width / 2) :=
      mul_le_mul_of_nonpos_left (by linarith) (by linarith)
    nlinarith
  · have : (1 + Real.pi / 2) * (width / 2) ≤ (1 + Real.pi / 2) * (12 / 2) :=
      mul_le_mul_of_nonneg_left (by linarith) (by linarith)
    nlinarith
  · unfold stripError
    norm_num
    ring

/-- Witness of `uncertainty_nonneg`: a strip of width 2 and equal
photoelectron counts. -/
theorem uncertainty_nonneg_witness :
    0 ≤ stripError (stripPosition Real.arctan Real.log 2 1 1) :=
  (uncertainty_nonneg 2 1 1 (by norm_num) (by norm_num) (by norm_num) (by norm_num)).1

/-! ## The hit assembler -/

/-- C15. For all arguments, the hit that `FillCrtHit` returns has `x_pos`,
`x_err`, `y_pos`, `y_err`, `z_pos`, `z_err`, `tagger`, `feb_id`, `pesmap` and
`peshit` equal to the arguments, `ts0_s_corr = 0`, `ts0_ns_corr = 0`,
`ts0_ns = ts1_ns = 5000*time` and `ts0_s = time/200000`, so that
`ts0_ns = 10^9 * ts0_s`. -/
theorem FillCrtHit_fields (tfeb_id : List Nat) (tpesmap : List (Nat × List (Int × ℚ)))
    (peshit time x ex y ey z ez : ℚ) (tagger : String) :
    (FillCrtHit tfeb_id tpesmap peshit time x ex y ey z ez tagger).x_pos = x
    ∧ (FillCrtHit tfeb_id tpesmap peshit time x ex y ey z ez tagger).x_err = ex
    ∧ (FillCrtHit tfeb_id tpesmap peshit time x ex y ey z ez tagger).y_pos = y
    ∧ (FillCrtHit tfeb_id tpesmap peshit time x ex y ey z ez tagger).y_err = ey
    ∧ (FillCrtHit tfeb_id tpesmap peshit time x ex y ey z ez tagger).z_pos = z
    ∧ (FillCrtHit tfeb_id tpesmap peshit time x ex y ey z ez tagger).z_err = ez
    ∧ (FillCrtHit tfeb_id tpesmap peshit time x ex y ey z ez tagger).tagger = tagger
    ∧ (FillCrtHit tfeb_id tpesmap peshit time x ex y ey z ez tagger).feb_id = tfeb_id
    ∧ (FillCrtHit tfeb_id tpesmap peshit time x ex y ey z ez tagger).pesmap = tpesmap
    ∧ (FillCrtHit tfeb_id tpesmap peshit time x ex y ey z ez tagger).peshit = peshit
    ∧ (FillCrtHit tfeb_id tpesmap peshit time x ex y ey z ez tagger).ts0_s_corr = 0
    ∧ (FillCrtHit tfeb_id tpesmap peshit time x ex y ey z ez tagger).ts0_ns_corr = 0
    ∧ (FillCrtHit tfeb_id tpesmap peshit time x ex y ey z ez tagger).ts0_ns = 5000 * time
    ∧ (FillCrtHit tfeb_id tpesmap peshit time x ex y ey z ez tagger).ts1_ns = 5000 * time
    ∧ (FillCrtHit tfeb_id tpesmap peshit time x ex y ey z ez tagger).ts0_s = time / 200000
    ∧ (FillCrtHit tfeb_id tpesmap peshit time x ex y ey z ez tagger).ts0_ns
        = 10 ^ 9 * (FillCrtHit tfeb_id tpesmap peshit time x ex y ey z ez tagger).ts0_s := by
  refine ⟨rfl, rfl, rfl, rfl, rfl, rfl, rfl, rfl, rfl, rfl, rfl, rfl, ?_, ?_, ?_, ?_⟩
  · show time * 0.5 * 10e3 = 5000 * time
    norm_num
    ring
  · show time * 0.5 * 10e3 = 5000 * time
    norm_num
    ring
  · show time * 0.5 * 10e-6 = time / 200000
    norm_num
    ring
  · show time * 0.5 * 10e3 = 10 ^ 9 * (time * 0.5 * 10e-6)
    norm_num
    ring

/-! ## Channel decoding -/

/-- The strip index is the quotient of the channel by 2, modulo 16. -/
theorem stripOfChannel_eq (c : Nat) : stripOfChannel c = (c / 2) % 16 := by
  have h15 : (15 : Nat) = 2 ^ 4 - 1 := rfl
  unfold stripOfChannel
  rw [h15, Nat.and_pow_two_sub_one_eq_mod, Nat.shiftRight_eq_div_pow]

/-- The module index is the quotient of the channel by 32. -/
theorem moduleOfChannel_eq (c : Nat) : moduleOfChannel c = c / 32 := by
  unfold moduleOfChannel
  rw [Nat.shiftRight_eq_div_pow]

/-- C16. For every channel `c`, `stripIndex = (c >> 1) & 15` is at most 15,
`module = c >> 5`, and `c = 32*module + 2*stripIndex + (c mod 2)`; the channels
`2k` and `2k+1` decode to the same module and strip index, so that the module
gives them the same strip geometry, tagger and overlap flag; two channels with
the same module and strip index have the same bits above the lowest one. -/
theorem channel_decoding (c : Nat) :
    stripOfChannel c ≤ 15
    ∧ moduleOfChannel c = c >>> 5
    ∧ stripOfChannel c = (c >>> 1) &&& 15
    ∧ c = 32 * moduleOfChannel c + 2 * stripOfChannel c + c % 2
    ∧ (∀ k : Nat, moduleOfChannel (2 * k) = moduleOfChannel (2 * k + 1)
        ∧ stripOfChannel (2 * k) = stripOfChannel (2 * k + 1))
    ∧ (∀ (self : CRTSimHitProducer) (k : Nat),
        stripGeoOfChannel self (2 * k) = stripGeoOfChannel self (2 * k + 1)
        ∧ ChannelToTagger self (2 * k) = ChannelToTagger self (2 * k + 1)
        ∧ CheckModuleOverlap self (2 * k) = CheckModuleOverlap self (2 * k + 1))
    ∧ (∀ c2 : Nat, moduleOfChannel c2 = moduleOfChannel c →
        stripOfChannel c2 = stripOfChannel c → c2 / 2 = c / 2) := by
  have hpair : ∀ k : Nat, moduleOfChannel (2 * k) = moduleOfChannel (2 * k + 1)
      ∧ stripOfChannel (2 * k) = stripOfChannel (2 * k + 1) := by
    intro k
    simp only [stripOfChannel_eq, moduleOfChannel_eq]
    omega
  refine ⟨?_, rfl, rfl, ?_, hpair, ?_, ?_⟩
  · rw [stripOfChannel_eq]
    omega
  · rw [stripOfChannel_eq, moduleOfChannel_eq]
    omega
  · intro self k
    obtain ⟨hm, hs⟩ := hpair k
    have hm2 : (2 * k) >>> 5 = (2 * k + 1) >>> 5 := hm
    have hs2 : ((2 * k) >>> 1) &&& 15 = ((2 * k + 1) >>> 1) &&& 15 := hs
    refine ⟨by unfold stripGeoOfChannel; rw [hm, hs], ?_, ?_⟩
    · unfold ChannelToTagger
      rw [hm2, hs2]
    · unfold CheckModuleOverlap
      rw [hm2, hs2]
  · intro c2 hm hs
    rw [stripOfChannel_eq, stripOfChannel_eq] at hs
    rw [moduleOfChannel_eq, moduleOfChannel_eq] at hm
    omega

/-! ## Empty input -/

/-- C17. For an event without pulses, the collection being absent or empty,
`produce` ends without error and the collection of hits it puts into the event
is empty. -/
theorem produce_empty (self : CRTSimHitProducer) :
    produce self none = some [] ∧ produce self (some []) = some [] := by
  constructor <;> rfl

/-! ## The box of a strip hit -/

/-- On every axis the lower bound that `ChannelToLimits` returns is at most the
upper bound. -/
theorem ChannelToLimits_wellFormed (self : CRTSimHitProducer) (stripHit : CRTStrip) :
    (ChannelToLimits self stripHit).minX ≤ (ChannelToLimits self stripHit).maxX
    ∧ (ChannelToLimits self stripHit).minY ≤ (ChannelToLimits self stripHit).maxY
    ∧ (ChannelToLimits self stripHit).minZ ≤ (ChannelToLimits self stripHit).maxZ := by
  unfold ChannelToLimits
  exact ⟨min_le_max, min_le_max, min_le_max⟩

/-- The smaller of `u + e` and `u - e` is `u - |e|`, the larger is `u + |e|`. -/
theorem min_max_add_sub (u e : ℚ) :
    min (u + e) (u - e) = u - |e| ∧ max (u + e) (u - e) = u + |e| := by
  rcases le_total 0 e with he | he
  · rw [abs_of_nonneg he, min_eq_right (by linarith), max_eq_left (by linarith)]
    exact ⟨rfl, rfl⟩
  · rw [abs_of_nonpos he, min_eq_left (by linarith), max_eq_right (by linarith)]
    constructor <;> ring

/-- The box of `ChannelToLimits` in terms of the strip geometry of the
channel. -/
theorem ChannelToLimits_eq (self : CRTSimHitProducer) (stripHit : CRTStrip) :
    ChannelToLimits self stripHit
      = (fun (g : AuxDetSensitiveGeo) =>
          (fun (w1 w2 : Vec3) =>
            (⟨min w1.x w2.x, max w1.x w2.x, min w1.y w2.y, max w1.y w2.y,
              min w1.z w2.z, max w1.z w2.z⟩ : Limits))
          (g.LocalToWorld ⟨-g.HalfWidth1 + stripHit.x + stripHit.ex, g.HalfHeight,
            g.HalfLength⟩)
          (g.LocalToWorld ⟨-g.HalfWidth1 + stripHit.x - stripHit.ex, -g.HalfHeight,
            -g.HalfLength⟩))
        (stripGeoOfChannel self stripHit.channel) :=
  rfl

/-- C19. For a strip hit with position `x` and uncertainty `ex` on a strip of
half width `hw`, half height `hh >= 0` and half length `hl >= 0` whose
local-to-world transform is the translation by `(a, b, c)`, the box of
`ChannelToLimits` is
`[a - hw + x - |ex|, a - hw + x + |ex|] x [b - hh, b + hh] x [c - hl, c + hl]`;
for any transform, each axis of the box has `min <= max`. -/
theorem ChannelToLimits_translation (self : CRTSimHitProducer) (stripHit : CRTStrip)
    (a b c : ℚ)
    (htrans : (stripGeoOfChannel self stripHit.channel).LocalToWorld = translate a b c)
    (hh : 0 ≤ (stripGeoOfChannel self stripHit.channel).HalfHeight)
    (hl : 0 ≤ (stripGeoOfChannel self stripHit.channel).HalfLength) :
    ChannelToLimits self stripHit
      = ⟨a - (stripGeoOfChannel self stripHit.channel).HalfWidth1 + stripHit.x - |stripHit.ex|,
         a - (stripGeoOfChannel self stripHit.channel).HalfWidth1 + stripHit.x + |stripHit.ex|,
         b - (stripGeoOfChannel self stripHit.channel).HalfHeight,
         b + (stripGeoOfChannel self stripHit.channel).HalfHeight,
         c - (stripGeoOfChannel self stripHit.channel).HalfLength,
         c + (stripGeoOfChannel self stripHit.channel).HalfLength⟩
    ∧ ∀ (self2 : CRTSimHitProducer) (stripHit2 : CRTStrip),
        (ChannelToLimits self2 stripHit2).minX ≤ (ChannelToLimits self2 stripHit2).maxX
        ∧ (ChannelToLimits self2 stripHit2).minY ≤ (ChannelToLimits self2 stripHit2).maxY
        ∧ (ChannelToLimits self2 stripHit2).minZ ≤ (ChannelToLimits self2 stripHit2).maxZ := by
  refine ⟨?_, ChannelToLimits_wellFormed⟩
  rw [ChannelToLimits_eq]
  simp only [htrans, translate]
  have hx := min_max_add_sub
    (a - (stripGeoOfChannel self stripHit.channel).HalfWidth1 + stripHit.x) stripHit.ex
  have e1 : -(stripGeoOfChannel self stripHit.channel).HalfWidth1 + stripHit.x + stripHit.ex + a
      = a - (stripGeoOfChannel self stripHit.channel).HalfWidth1 + stripHit.x + stripHit.ex := by
    ring
  have e2 : -(stripGeoOfChannel self stripHit.channel).HalfWidth1 + stripHit.x - stripHit.ex + a
      = a - (stripGeoOfChannel self stripHit.channel).HalfWidth1 + stripHit.x - stripHit.ex := by
    ring
  rw [e1, e2, hx.1, hx.2]
  rw [min_eq_right (by linarith), max_eq_left (by linarith), min_eq_right (by linarith),
    max_eq_left (by linarith)]
  congr 1 <;> ring

/-- Witness of `ChannelToLimits_translation`: the strip hit of channel 0 in the
small detector, whose strips are placed by the translation `(0, 0, 0)`. -/
theorem ChannelToLimits_translation_witness :
    ChannelToLimits (smallDetector 0 false) (stripA 0 0)
      = ⟨0 - (stripGeoOfChannel (smallDetector 0 false) (stripA 0 0).channel).HalfWidth1
            + (stripA 0 0).x - |(stripA 0 0).ex|,
         0 - (stripGeoOfChannel (smallDetector 0 false) (stripA 0 0).channel).HalfWidth1
            + (stripA 0 0).x + |(stripA 0 0).ex|,
         0 - (stripGeoOfChannel (smallDetector 0 false) (stripA 0 0).channel).HalfHeight,
         0 + (stripGeoOfChannel (smallDetector 0 false) (stripA 0 0).channel).HalfHeight,
         0 - (stripGeoOfChannel (smallDetector 0 false) (stripA 0 0).channel).HalfLength,
         0 + (stripGeoOfChannel (smallDetector 0 false) (stripA 0 0).channel).HalfLength⟩ :=
  (ChannelToLimits_translation (smallDetector 0 false) (stripA 0 0) 0 0 0 rfl
    (by decide!) (by decide!)).1

/-! ## Position of a matched hit relative to the two boxes -/

/-- Entry 0 of the result of `CrtOverlap` differs from `-99999` only when the
result is the box of per-axis `lo` and `hi`. -/
theorem CrtOverlap_eq_of_minX_ne (b1 b2 : Limits) (h : (CrtOverlap b1 b2).minX ≠ -99999) :
    CrtOverlap b1 b2 = intersectionBox b1 b2 := by
  have h2 : 2 ≤ strictAxes b1 b2 := ((CrtOverlap_minX_ne b1 b2).1 h).1
  unfold CrtOverlap strictAxes intersectionBox at *
  by_cases hx : max b1.minX b2.minX < min b1.maxX b2.maxX <;>
  by_cases hy : max b1.minY b2.minY < min b1.maxY b2.maxY <;>
  by_cases hz : max b1.minZ b2.minZ < min b1.maxZ b2.maxZ <;>
  simp [hx, hy, hz] at h2 ⊢

/-- On one axis, for two intervals with `min <= max`, the coordinate
`(lo + hi)/2` and the error `|(hi - lo)/2|` are in the relation
`axisRelation` with the intervals. -/
theorem axisRelation_mid (min1 max1 min2 max2 : ℚ) (h1 : min1 ≤ max1) (h2 : min2 ≤ max2) :
    axisRelation min1 max1 min2 max2 ((max min1 min2 + min max1 max2) / 2)
      |(min max1 max2 - max min1 min2) / 2| := by
  unfold axisRelation
  constructor
  · intro hlt
    have a1 := le_max_left min1 min2
    have a2 := le_max_right min1 min2
    have a3 := min_le_left max1 max2
    have a4 := min_le_right max1 max2
    refine ⟨⟨?_, ?_⟩, ⟨?_, ?_⟩⟩ <;> linarith
  · intro hlt
    have habs : |(min max1 max2 - max min1 min2) / 2| = (max min1 min2 - min max1 max2) / 2 := by
      rw [abs_of_nonpos (by linarith)]
      ring
    rw [habs]
    rcases le_total max1 max2 with hmax | hmax <;> rcases le_total min1 min2 with hmin | hmin
    · rw [min_eq_left hmax, max_eq_right hmin] at hlt ⊢
      exact ⟨⟨Or.inr (by linarith), Or.inl (by linarith)⟩, Or.inl ⟨hlt, by ring, rfl⟩⟩
    · rw [min_eq_left hmax, max_eq_left hmin] at hlt
      exact absurd hlt (not_lt.2 h1)
    · rw [min_eq_right hmax, max_eq_right hmin] at hlt
      exact absurd hlt (not_lt.2 h2)
    · rw [min_eq_right hmax, max_eq_left hmin] at hlt ⊢
      exact ⟨⟨Or.inl (by linarith), Or.inr (by linarith)⟩, Or.inr ⟨hlt, by ring, rfl⟩⟩

/-- C20. For every matched pair, on each axis where `lo < hi` the coordinate of
the hit lies strictly inside the intervals of both boxes; on an axis where
`lo > hi` the two intervals are apart, the coordinate lies strictly outside
both, at the middle of the gap between them, and the error of the hit is half
the width of the gap.  At most one axis is without `lo < hi`. -/
theorem matched_position_relative (self : CRTSimHitProducer) (tagger : String)
    (h h2 : CRTStrip) (hit : CRTHit) (hm : matchedHit self tagger h h2 = some hit) :
    axisRelation (ChannelToLimits self h).minX (ChannelToLimits self h).maxX
        (ChannelToLimits self h2).minX (ChannelToLimits self h2).maxX hit.x_pos hit.x_err
    ∧ axisRelation (ChannelToLimits self h).minY (ChannelToLimits self h).maxY
        (ChannelToLimits self h2).minY (ChannelToLimits self h2).maxY hit.y_pos hit.y_err
    ∧ axisRelation (ChannelToLimits self h).minZ (ChannelToLimits self h).maxZ
        (ChannelToLimits self h2).minZ (ChannelToLimits self h2).maxZ hit.z_pos hit.z_err
    ∧ 2 ≤ strictAxes (ChannelToLimits self h) (ChannelToLimits self h2) := by
  have hsome := (matchedHit_isSome self tagger h h2).1 (by simp [hm])
  have hbox := CrtOverlap_eq_of_minX_ne _ _ hsome.1
  have hrule := ((CrtOverlap_minX_ne _ _).1 hsome.1).1
  obtain ⟨w1x, w1y, w1z⟩ := ChannelToLimits_wellFormed self h
  obtain ⟨w2x, w2y, w2z⟩ := ChannelToLimits_wellFormed self h2
  unfold matchedHit at hm
  simp only [] at hm
  rw [if_pos hsome] at hm
  have hhit := (Option.some.inj hm).symm
  rw [hbox] at hhit
  subst hhit
  exact ⟨axisRelation_mid _ _ _ _ w1x w2x, axisRelation_mid _ _ _ _ w1y w2y,
    axisRelation_mid _ _ _ _ w1z w2z, hrule⟩

/-- Witness of `matched_position_relative`: the pair of strip hits of the small
detector, one in each plane, at the same time. -/
theorem matched_position_relative_witness :
    axisRelation (ChannelToLimits (smallDetector 0 false) (stripA 0 0)).minZ
      (ChannelToLimits (smallDetector 0 false) (stripA 0 0)).maxZ
      (ChannelToLimits (smallDetector 0 false) (stripB 0 0)).minZ
      (ChannelToLimits (smallDetector 0 false) (stripB 0 0)).maxZ
      (FillCrtHit [0] [(0, [(0, 0)])] 0 0 0 (stripError 1) 0 1 (1 / 2) (1 / 2)
        "tagger").z_pos
      (FillCrtHit [0] [(0, [(0, 0)])] 0 0 0 (stripError 1) 0 1 (1 / 2) (1 / 2)
        "tagger").z_err :=
  (matched_position_relative (smallDetector 0 false) "tagger" (stripA 0 0) (stripB 0 0)
    (FillCrtHit [0] [(0, [(0, 0)])] 0 0 0 (stripError 1) 0 1 (1 / 2) (1 / 2) "tagger")
    (by decide!)).2.2.1

/-! ## An event with one strip hit in each plane -/

/-- The map after the pulse loop and the removal of duplicates, for two strip
hits of one tagger, `h` in plane 0 and `h2` in plane 1, built in either order. -/
theorem group_two_planes (name : String) (h h2 : CRTStrip) (htag : h.tagger = (name, 0))
    (htag2 : h2.tagger = (name, 1)) :
    dedupAll (groupStrips [h, h2]) = [((name, 0), [h]), ((name, 1), [h2])]
    ∧ dedupAll (groupStrips [h2, h]) = [((name, 0), [h]), ((name, 1), [h2])] := by
  constructor <;>
    simp [dedupAll, groupStrips, pushBack, htag, htag2, keyLess, dedupStrips, sortStrips,
      std_unique, uniqueAux]

/-- The hits of an event whose map holds one strip hit `h` in plane 0 and one
strip hit `h2` in plane 1 of the same tagger, both in overlapping modules: the
hit recorded for `(h, h2)`, if one is, and nothing else. -/
theorem taggerLoop_two_planes (self : CRTSimHitProducer) (name : String) (h h2 : CRTStrip)
    (hmod : CheckModuleOverlap self h.channel = true)
    (hmod2 : CheckModuleOverlap self h2.channel = true) :
    taggerLoop self [((name, 0), [h]), ((name, 1), [h2])]
        [((name, 0), [h]), ((name, 1), [h2])] []
      = (matchedHit self name h h2).toList := by
  cases hm : matchedHit self name h h2 <;>
    simp [taggerLoop, stripsAt, firstPlaneHits, otherPlaneHits, hmod, hmod2, hm]

/-- C14, as stated, fails: in the small detector placed so that the lower x
bound of both strip boxes is `-99999`, the event has exactly two strip hits of
the tagger, one in plane 0 and one in plane 1, both in overlapping modules,
their boxes have `lo < hi` on x and on y, their times are equal, and the output
holds no hit. -/
theorem end_to_end_match_counterexample :
    buildStripHits (smallDetector farShift false) [pulseA 8, pulseA 8, pulseB 8, pulseB 8]
      = some [stripA farShift 8, stripB farShift 8]
    ∧ (stripA farShift 8).tagger = ("tagger", 0)
    ∧ (stripB farShift 8).tagger = ("tagger", 1)
    ∧ CheckModuleOverlap (smallDetector farShift false) (stripA farShift 8).channel = true
    ∧ CheckModuleOverlap (smallDetector farShift false) (stripB farShift 8).channel = true
    ∧ max (ChannelToLimits (smallDetector farShift false) (stripA farShift 8)).minX
          (ChannelToLimits (smallDetector farShift false) (stripB farShift 8)).minX
        < min (ChannelToLimits (smallDetector farShift false) (stripA farShift 8)).maxX
          (ChannelToLimits (smallDetector farShift false) (stripB farShift 8)).maxX
    ∧ max (ChannelToLimits (smallDetector farShift false) (stripA farShift 8)).minY
          (ChannelToLimits (smallDetector farShift false) (stripB farShift 8)).minY
        < min (ChannelToLimits (smallDetector farShift false) (stripA farShift 8)).maxY
          (ChannelToLimits (smallDetector farShift false) (stripB farShift 8)).maxY
    ∧ |(stripA farShift 8).t0 - (stripB farShift 8).t0|
        < (smallDetector farShift false).fTimeCoincidenceLimit
    ∧ produce (smallDetector farShift false)
        (some [pulseA 8, pulseA 8, pulseB 8, pulseB 8]) = some [] := by
  decide!

/-- C14, amended.  For an event with exactly two strip hits of one tagger, `h`
in plane 0 and `h2` in plane 1, both in overlapping modules, whose boxes have
`lo < hi` on x and on y with a lower x bound `max(minX1, minX2)` of the
intersection other than `-99999`, and whose times differ by less than
`timeCoincidenceLimit`, the output holds exactly one hit, and its position is
the per-axis midpoint of the `CrtOverlap` box of the two boxes. -/
theorem end_to_end_match (self : CRTSimHitProducer) (crtList : List CRTData)
    (name : String) (h h2 : CRTStrip)
    (hbuild : buildStripHits self crtList = some [h, h2]
      ∨ buildStripHits self crtList = some [h2, h])
    (htag : h.tagger = (name, 0)) (htag2 : h2.tagger = (name, 1))
    (hmod : CheckModuleOverlap self h.channel = true)
    (hmod2 : CheckModuleOverlap self h2.channel = true)
    (hx : max (ChannelToLimits self h).minX (ChannelToLimits self h2).minX
      < min (ChannelToLimits self h).maxX (ChannelToLimits self h2).maxX)
    (hy : max (ChannelToLimits self h).minY (ChannelToLimits self h2).minY
      < min (ChannelToLimits self h).maxY (ChannelToLimits self h2).maxY)
    (hsent : max (ChannelToLimits self h).minX (ChannelToLimits self h2).minX ≠ -99999)
    (htime : |h.t0 - h2.t0| < self.fTimeCoincidenceLimit) :
    ∃ hit : CRTHit, produce self (some crtList) = some [hit]
      ∧ hit.x_pos = ((CrtOverlap (ChannelToLimits self h) (ChannelToLimits self h2)).minX
          + (CrtOverlap (ChannelToLimits self h) (ChannelToLimits self h2)).maxX) / 2
      ∧ hit.y_pos = ((CrtOverlap (ChannelToLimits self h) (ChannelToLimits self h2)).minY
          + (CrtOverlap (ChannelToLimits self h) (ChannelToLimits self h2)).maxY) / 2
      ∧ hit.z_pos = ((CrtOverlap (ChannelToLimits self h) (ChannelToLimits self h2)).minZ
          + (CrtOverlap (ChannelToLimits self h) (ChannelToLimits self h2)).maxZ) / 2 := by
  have hrule : 2 ≤ strictAxes (ChannelToLimits self h) (ChannelToLimits self h2) := by
    unfold strictAxes
    rw [if_pos hx, if_pos hy]
    omega
  have hne : (CrtOverlap (ChannelToLimits self h) (ChannelToLimits self h2)).minX ≠ -99999 :=
    (CrtOverlap_minX_ne _ _).2 ⟨hrule, hsent⟩
  have hdef : ∃ hit : CRTHit, matchedHit self name h h2 = some hit
      ∧ hit.x_pos = ((CrtOverlap (ChannelToLimits self h) (ChannelToLimits self h2)).minX
          + (CrtOverlap (ChannelToLimits self h) (ChannelToLimits self h2)).maxX) / 2
      ∧ hit.y_pos = ((CrtOverlap (ChannelToLimits self h) (ChannelToLimits self h2)).minY
          + (CrtOverlap (ChannelToLimits self h) (ChannelToLimits self h2)).maxY) / 2
      ∧ hit.z_pos = ((CrtOverlap (ChannelToLimits self h) (ChannelToLimits self h2)).minZ
          + (CrtOverlap (ChannelToLimits self h) (ChannelToLimits self h2)).maxZ) / 2 := by
    unfold matchedHit
    simp only []
    rw [if_pos ⟨hne, htime⟩]
    exact ⟨_, rfl, rfl, rfl, rfl⟩
  obtain ⟨hit, hm, px, py, pz⟩ := hdef
  obtain ⟨g1, g2⟩ := group_two_planes name h h2 htag htag2
  refine ⟨hit, ?_, px, py, pz⟩
  rcases hbuild with hb | hb
  · simp only [produce, Option.getD_some, hb, Option.map_some', g1]
    rw [taggerLoop_two_planes self name h h2 hmod hmod2, hm]
    rfl
  · simp only [produce, Option.getD_some, hb, Option.map_some', g2]
    rw [taggerLoop_two_planes self name h h2 hmod hmod2, hm]
    rfl

/-- Witness of `end_to_end_match`: the event of the small detector with one
strip hit in each plane, at the same time. -/
theorem end_to_end_match_witness :
    ∃ hit : CRTHit,
      produce (smallDetector 0 false) (some [pulseA 0, pulseA 0, pulseB 0, pulseB 0])
        = some [hit]
      ∧ hit.x_pos
        = ((CrtOverlap (ChannelToLimits (smallDetector 0 false) (stripA 0 0))
              (ChannelToLimits (smallDetector 0 false) (stripB 0 0))).minX
          + (CrtOverlap (ChannelToLimits (smallDetector 0 false) (stripA 0 0))
              (ChannelToLimits (smallDetector 0 false) (stripB 0 0))).maxX) / 2
      ∧ hit.y_pos
        = ((CrtOverlap (ChannelToLimits (smallDetector 0 false) (stripA 0 0))
              (ChannelToLimits (smallDetector 0 false) (stripB 0 0))).minY
          + (CrtOverlap (ChannelToLimits (smallDetector 0 false) (stripA 0 0))
              (ChannelToLimits (smallDetector 0 false) (stripB 0 0))).maxY) / 2
      ∧ hit.z_pos
        = ((CrtOverlap (ChannelToLimits (smallDetector 0 false) (stripA 0 0))
              (ChannelToLimits (smallDetector 0 false) (stripB 0 0))).minZ
          + (CrtOverlap (ChannelToLimits (smallDetector 0 false) (stripA 0 0))
              (ChannelToLimits (smallDetector 0 false) (stripB 0 0))).maxZ) / 2 :=
  end_to_end_match (smallDetector 0 false) [pulseA 0, pulseA 0, pulseB 0, pulseB 0] "tagger"
    (stripA 0 0) (stripB 0 0) (Or.inl (by decide!)) (by decide!) (by decide!) (by decide!)
    (by decide!) (by decide!) (by decide!) (by decide!) (by decide!)

/-! ## Order of the keys of the map -/

/-- Comparison `keyLess` is the strict lexicographic order on the pairs of a
tagger name and a plane. -/
theorem keyLess_iff_lex (a b : String × Nat) : keyLess a b = true ↔ toLex a < toLex b := by
  rw [Prod.Lex.lt_iff]
  have hdata : ∀ s t : String, s.data < t.data ↔ s < t :=
    fun s t => (String.lt_iff_toList_lt).symm
  simp only [keyLess, Bool.or_eq_true, Bool.and_eq_true, Bool.not_eq_true', decide_eq_true_eq,
    decide_eq_false_iff_not, hdata]
  constructor
  · rintro (h | ⟨h1, h2⟩)
    · exact Or.inl h
    · rcases lt_trichotomy a.1 b.1 with hlt | heq | hgt
      · exact Or.inl hlt
      · exact Or.inr ⟨heq, h2⟩
      · exact absurd hgt h1
  · rintro (h | ⟨h1, h2⟩)
    · exact Or.inl h
    · exact Or.inr ⟨by rw [h1]; exact lt_irrefl _, h2⟩

/-- An entry of the map after a `push_back` under `k` is an entry with key `k`
and a non-empty vector, or an entry of the map before. -/
theorem mem_pushBack (m : TaggerStrips) (k : String × Nat) (s : CRTStrip) :
    ∀ e ∈ pushBack m k s, (e.1 = k ∧ e.2 ≠ []) ∨ e ∈ m := by
  induction m with
  | nil =>
    intro e he
    simp [pushBack] at he
    subst he
    exact Or.inl ⟨rfl, by simp⟩
  | cons e0 rest ih =>
    obtain ⟨k0, v0⟩ := e0
    intro e he
    unfold pushBack at he
    split_ifs at he with hk hlt
    · rcases List.mem_cons.1 he with h | h
      · subst h
        exact Or.inl ⟨hk.symm, by simp⟩
      · exact Or.inr (List.mem_cons_of_mem _ h)
    · rcases List.mem_cons.1 he with h | h
      · subst h
        exact Or.inl ⟨rfl, by simp⟩
      · exact Or.inr h
    · rcases List.mem_cons.1 he with h | h
      · subst h
        exact Or.inr (List.mem_cons_self _ _)
      · rcases ih e h with h2 | h2
        · exact Or.inl h2
        · exact Or.inr (List.mem_cons_of_mem _ h2)

/-- The key of an entry of the map after a `push_back` under `k` is `k` or the
key of an entry of the map before. -/
theorem key_mem_pushBack (m : TaggerStrips) (k : String × Nat) (s : CRTStrip) :
    ∀ e ∈ pushBack m k s, e.1 = k ∨ ∃ e0 ∈ m, e0.1 = e.1 := by
  induction m with
  | nil =>
    intro e he
    simp [pushBack] at he
    subst he
    exact Or.inl rfl
  | cons e0 rest ih =>
    obtain ⟨k0, v0⟩ := e0
    intro e he
    unfold pushBack at he
    split_ifs at he with hk hlt
    · rcases List.mem_cons.1 he with h | h
      · subst h
        exact Or.inl hk.symm
      · exact Or.inr ⟨e, List.mem_cons_of_mem _ h, rfl⟩
    · rcases List.mem_cons.1 he with h | h
      · subst h
        exact Or.inl rfl
      · exact Or.inr ⟨e, h, rfl⟩
    · rcases List.mem_cons.1 he with h | h
      · subst h
        exact Or.inr ⟨(k0, v0), List.mem_cons_self _ _, rfl⟩
      · rcases ih e h with h2 | ⟨e1, he1, hk1⟩
        · exact Or.inl h2
        · exact Or.inr ⟨e1, List.mem_cons_of_mem _ he1, hk1⟩

/-- A `push_back` keeps the keys of the map in strictly increasing order. -/
theorem pushBack_sorted (m : TaggerStrips) (k : String × Nat) (s : CRTStrip)
    (hm : m.Pairwise (fun a b => toLex a.1 < toLex b.1)) :
    (pushBack m k s).Pairwise (fun a b => toLex a.1 < toLex b.1) := by
  induction m with
  | nil => simp [pushBack]
  | cons e0 rest ih =>
    obtain ⟨k0, v0⟩ := e0
    obtain ⟨h0, hrest⟩ := List.pairwise_cons.1 hm
    unfold pushBack
    split_ifs with hk hlt
    · exact List.pairwise_cons.2 ⟨fun b hb => h0 b hb, hrest⟩
    · have hkk0 : toLex k < toLex k0 := (keyLess_iff_lex k k0).1 hlt
      refine List.pairwise_cons.2 ⟨fun b hb => ?_, hm⟩
      rcases List.mem_cons.1 hb with h | h
      · subst h
        exact hkk0
      · exact lt_trans hkk0 (h0 b h)
    · have hk0k : toLex k0 < toLex k := by
        rcases lt_trichotomy (toLex k0) (toLex k) with h | h | h
        · exact h
        · exact absurd (toLex.injective h).symm hk
        · exact absurd ((keyLess_iff_lex k k0).2 h) hlt
      refine List.pairwise_cons.2 ⟨fun b hb => ?_, ih hrest⟩
      rcases key_mem_pushBack rest k s b hb with h | ⟨e1, he1, hk1⟩
      · rw [h]
        exact hk0k
      · rw [← hk1]
        exact h0 e1 he1

/-- A partition that is not empty is not empty after the sort and the removal
of duplicates. -/
theorem dedupStrips_ne_nil (l : List CRTStrip) (hl : l ≠ []) : dedupStrips l ≠ [] := by
  unfold dedupStrips
  cases hs : sortStrips l with
  | nil =>
    have hlen := (sortStrips_perm l).length_eq
    rw [hs] at hlen
    exact absurd (List.length_eq_zero.1 hlen.symm) hl
  | cons a t => simp [std_unique]

/-- The map built from strip hits whose planes are 0 or 1 is well grouped,
before and after the removal of duplicates. -/
theorem wellGrouped_dedupAll (hits : List CRTStrip) (hplane : ∀ h ∈ hits, h.tagger.2 ≤ 1) :
    WellGrouped (dedupAll (groupStrips hits)) := by
  have hfold : ∀ (l : List CRTStrip) (m : TaggerStrips), (∀ h ∈ l, h.tagger.2 ≤ 1) →
      WellGrouped m → WellGrouped (l.foldl (fun m h => pushBack m h.tagger h) m) := by
    intro l
    induction l with
    | nil => intro m _ hm; simpa using hm
    | cons s l ih =>
      intro m hl hm
      refine ih _ (fun h hh => hl h (List.mem_cons_of_mem _ hh)) ⟨?_, ?_, ?_⟩
      · exact pushBack_sorted m s.tagger s hm.1
      · intro e he
        rcases key_mem_pushBack m s.tagger s e he with h | ⟨e1, he1, hk1⟩
        · rw [h]
          exact hl s (List.mem_cons_self _ _)
        · rw [← hk1]
          exact hm.2.1 e1 he1
      · intro e he
        rcases mem_pushBack m s.tagger s e he with h | h
        · exact h.2
        · exact hm.2.2 e h
  have hg : WellGrouped (groupStrips hits) :=
    hfold hits [] hplane ⟨List.Pairwise.nil, by simp, by simp⟩
  unfold dedupAll
  refine ⟨?_, ?_, ?_⟩
  · rw [List.pairwise_map]
    exact hg.1
  · intro e he
    obtain ⟨e0, he0, rfl⟩ := List.mem_map.1 he
    exact hg.2.1 e0 he0
  · intro e he
    obtain ⟨e0, he0, rfl⟩ := List.mem_map.1 he
    exact dedupStrips_ne_nil _ (hg.2.2 e0 he0)

/-- Every strip hit that the pulse loop builds is made from two pulses. -/
theorem mem_buildStripHits (self : CRTSimHitProducer) :
    ∀ (l : List CRTData) (hits : List CRTStrip), buildStripHits self l = some hits →
      ∀ h ∈ hits, ∃ p1 p2, h = makeStripHit self p1 p2
  | [], hits, hb => by
    simp [buildStripHits] at hb
    subst hb
    simp
  | [p], hits, hb => by
    unfold buildStripHits at hb
    split_ifs at hb
    simp at hb
    subst hb
    simp
  | p1 :: p2 :: rest, hits, hb => by
    unfold buildStripHits at hb
    split_ifs at hb
    · cases hr : buildStripHits self rest with
      | none => simp [hr] at hb
      | some hits0 =>
        simp [hr] at hb
        subst hb
        intro h hh
        rcases List.mem_cons.1 hh with rfl | hh
        · exact ⟨p1, p2, rfl⟩
        · exact mem_buildStripHits self rest hits0 hr h hh
    · exact mem_buildStripHits self rest hits hb

/-- The plane of every strip hit that the pulse loop builds is 0 or 1. -/
theorem plane_le_one_of_build (self : CRTSimHitProducer) (l : List CRTData)
    (hits : List CRTStrip) (hb : buildStripHits self l = some hits) :
    ∀ h ∈ hits, h.tagger.2 ≤ 1 := by
  intro h hh
  obtain ⟨p1, p2, rfl⟩ := mem_buildStripHits self l hits hb h hh
  show (ChannelToTagger self p1.Channel).2 ≤ 1
  unfold ChannelToTagger
  simp only []
  split_ifs <;> omega

/-! ## Lookups in the map -/

/-- The vector read under the key of an entry of a map with distinct keys is
the vector of the entry. -/
theorem stripsAt_of_mem (ts : TaggerStrips)
    (hs : ts.Pairwise (fun a b => toLex a.1 < toLex b.1)) :
    ∀ e ∈ ts, stripsAt ts e.1 = e.2 := by
  induction ts with
  | nil => intro e he; simp at he
  | cons e0 rest ih =>
    obtain ⟨h0, hrest⟩ := List.pairwise_cons.1 hs
    intro e he
    rcases List.mem_cons.1 he with rfl | h
    · simp [stripsAt]
    · have hne : ¬ e0.1 = e.1 := by
        intro heq
        have := h0 e h
        rw [heq] at this
        exact lt_irrefl _ this
      have htail := ih hrest e h
      unfold stripsAt at htail ⊢
      rw [List.find?_cons_of_neg _ (by simpa using hne)]
      exact htail

/-- The vector read under a key that no entry has is empty. -/
theorem stripsAt_of_not_mem (ts : TaggerStrips) (k : String × Nat)
    (hk : ∀ e ∈ ts, e.1 ≠ k) : stripsAt ts k = [] := by
  unfold stripsAt
  rw [List.find?_eq_none.2 (by simpa using hk)]

/-! ## The tagger loop, entry by entry -/

/-- The tagger loop at an entry whose name has not been used. -/
theorem taggerLoop_cons_fresh (self : CRTSimHitProducer) (ts rest : TaggerStrips)
    (e : (String × Nat) × List CRTStrip) (used : List String) (hfresh : e.1.1 ∉ used) :
    taggerLoop self ts (e :: rest) used
      = e.2.flatMap (firstPlaneHits self e.1.1 (stripsAt ts (e.1.1, oppositePlane e.1.2)))
        ++ otherPlaneHits self e.1.1 (stripsAt ts (e.1.1, oppositePlane e.1.2))
        ++ taggerLoop self ts rest (used ++ [e.1.1]) := by
  have hc : used.contains e.1.1 = false := by simpa using hfresh
  rw [taggerLoop]
  simp only [hc, Bool.false_eq_true, if_false]
  rfl

/-- The tagger loop at an entry whose name has been used: the entry is
skipped. -/
theorem taggerLoop_cons_used (self : CRTSimHitProducer) (ts rest : TaggerStrips)
    (e : (String × Nat) × List CRTStrip) (used : List String) (hused : e.1.1 ∈ used) :
    taggerLoop self ts (e :: rest) used = taggerLoop self ts rest used := by
  have hc : used.contains e.1.1 = true := by simpa using hused
  rw [taggerLoop]
  simp only [hc, if_true]

/-- The second loop over `hit_j` records the single-plane hits of the strip hits
whose module is not overlapping. -/
theorem otherPlaneHits_eq (self : CRTSimHitProducer) (tagger : String)
    (other : List CRTStrip) :
    otherPlaneHits self tagger other
      = (other.filter fun h => !CheckModuleOverlap self h.channel).map
          (singlePlaneHit self tagger) := by
  unfold otherPlaneHits
  induction other with
  | nil => rfl
  | cons h l ih =>
    cases hc : CheckModuleOverlap self h.channel <;>
      simpa [List.filterMap_cons, List.filter_cons, hc] using ih

/-- The first loop over an entry records, up to order, the single-plane hits
of its strip hits whose module is not overlapping and the matched hits of the
others. -/
theorem firstPlane_perm (self : CRTSimHitProducer) (ts : TaggerStrips)
    (e : (String × Nat) × List CRTStrip) :
    (e.2.flatMap (firstPlaneHits self e.1.1 (stripsAt ts (e.1.1, oppositePlane e.1.2)))).Perm
      ((e.2.filter fun h => !CheckModuleOverlap self h.channel).map
          (singlePlaneHit self e.1.1)
        ++ matchedHitsOfEntry self ts e) := by
  unfold matchedHitsOfEntry
  generalize e.2 = l
  induction l with
  | nil => simp
  | cons h l ih =>
    cases hc : CheckModuleOverlap self h.channel
    · simpa [List.flatMap_cons, List.filter_cons, hc, firstPlaneHits] using ih
    · simp only [List.flatMap_cons, List.filter_cons, hc, firstPlaneHits, if_true,
        Bool.not_true, Bool.false_eq_true, if_false]
      refine (List.Perm.append_left _ ih).trans ?_
      rw [List.perm_iff_count]
      intro a
      simp only [List.count_append]
      omega

/-- The matched hits of the entries `e :: rest` that are first planes. -/
theorem matchedHitsOf_cons (self : CRTSimHitProducer) (ts rest : TaggerStrips)
    (e : (String × Nat) × List CRTStrip) :
    matchedHitsOf self ts (e :: rest)
      = (if isPrimaryEntry ts e then matchedHitsOfEntry self ts e else [])
        ++ matchedHitsOf self ts rest := by
  unfold matchedHitsOf
  cases hp : isPrimaryEntry ts e <;> simp [List.filter_cons, hp]

/-- The plane opposite to a plane is another plane. -/
theorem oppositePlane_ne (p : Nat) : oppositePlane p ≠ p := by
  unfold oppositePlane
  split_ifs <;> omega

/-- In a well grouped map, an entry of plane 0 is the first plane of its
tagger. -/
theorem primaryPlane_of_plane_zero (ts : TaggerStrips) (hwg : WellGrouped ts)
    (e : (String × Nat) × List CRTStrip) (he : e ∈ ts) (h0 : e.1.2 = 0) :
    primaryPlane ts e.1.1 = 0 := by
  have hs := stripsAt_of_mem ts hwg.1 e he
  have hkey : e.1 = (e.1.1, 0) := by rw [← h0]
  rw [hkey] at hs
  unfold primaryPlane
  rw [hs, if_pos (hwg.2.2 e he)]

/-- The single-plane hits of the entries `e :: rest`. -/
theorem singleHitsOf_cons (self : CRTSimHitProducer) (rest : TaggerStrips)
    (e : (String × Nat) × List CRTStrip) :
    singleHitsOf self (e :: rest)
      = (e.2.filter fun h => !CheckModuleOverlap self h.channel).map
          (singlePlaneHit self e.1.1)
        ++ singleHitsOf self rest := by
  simp [singleHitsOf, List.flatMap_cons]

/-- The tagger loop records, up to order, one single-plane hit for every strip
hit whose module is not overlapping and the matched hits of the entries that
are first planes.  Here `rest` holds the entries still to visit, `pre` those
passed and `used` their names, and no name of `rest` is in `used`. -/
theorem taggerLoop_perm_aux (self : CRTSimHitProducer) (ts : TaggerStrips)
    (hwg : WellGrouped ts) :
    ∀ (n : Nat) (pre rest : TaggerStrips) (used : List String), rest.length ≤ n →
      ts = pre ++ rest → (∀ name, name ∈ used ↔ ∃ e ∈ pre, e.1.1 = name) →
      (∀ e ∈ rest, e.1.1 ∉ used) →
      (taggerLoop self ts rest used).Perm
        (singleHitsOf self rest ++ matchedHitsOf self ts rest) := by
  intro n
  induction n with
  | zero =>
    intro pre rest used hlen _ _ _
    have : rest = [] := List.length_eq_zero.1 (Nat.le_zero.1 hlen)
    subst this
    simp [taggerLoop, singleHitsOf, matchedHitsOf]
  | succ n ih =>
    intro pre rest used hlen hts hused hfresh
    cases rest with
    | nil => simp [taggerLoop, singleHitsOf, matchedHitsOf]
    | cons e rest1 =>
      have hpw : (e :: rest1).Pairwise (fun a b => toLex a.1 < toLex b.1) := by
        have := hwg.1
        rw [hts] at this
        exact (List.pairwise_append.1 this).2.1
      obtain ⟨helt, hpw1⟩ := List.pairwise_cons.1 hpw
      have hmem : ∀ x ∈ e :: rest1, x ∈ ts := by
        intro x hx
        rw [hts]
        exact List.mem_append_right _ hx
      have he_ts : e ∈ ts := hmem e (List.mem_cons_self _ _)
      have hnot : e.1.1 ∉ used := hfresh e (List.mem_cons_self _ _)
      have hX := firstPlane_perm self ts e
      rw [taggerLoop_cons_fresh self ts rest1 e used hnot, otherPlaneHits_eq,
        singleHitsOf_cons, matchedHitsOf_cons]
      by_cases hnext : ∃ e2 rest2, rest1 = e2 :: rest2 ∧ e2.1.1 = e.1.1
      · obtain ⟨e2, rest2, hr, hname⟩ := hnext
        subst hr
        have he2_ts : e2 ∈ ts := hmem e2 (by simp)
        have hlt : toLex e.1 < toLex e2.1 := helt e2 (List.mem_cons_self _ _)
        have hplanes : e.1.2 = 0 ∧ e2.1.2 = 1 := by
          have h2 := hwg.2.1 e2 he2_ts
          rcases (Prod.Lex.lt_iff _ _).1 hlt with h | ⟨_, h⟩
          · exact absurd h (by rw [hname]; exact lt_irrefl _)
          · omega
        obtain ⟨hp0, hp1⟩ := hplanes
        have hother : stripsAt ts (e.1.1, oppositePlane e.1.2) = e2.2 := by
          have hs := stripsAt_of_mem ts hwg.1 e2 he2_ts
          have hk : e2.1 = (e.1.1, oppositePlane e.1.2) := by
            have hopp : oppositePlane e.1.2 = e2.1.2 := by
              rw [hp0, hp1]
              rfl
            rw [hopp, ← hname]
          rw [← hk]
          exact hs
        have hprim : primaryPlane ts e.1.1 = 0 :=
          primaryPlane_of_plane_zero ts hwg e he_ts hp0
        have hpe : isPrimaryEntry ts e = true := by simp [isPrimaryEntry, hprim, hp0]
        have hpe2 : isPrimaryEntry ts e2 = false := by
          simp [isPrimaryEntry, hname, hprim, hp1]
        have hfresh2 : ∀ x ∈ rest2, x.1.1 ∉ used ++ [e.1.1] := by
          intro x hx
          have hx1 : x.1.1 ∉ used := hfresh x (by simp [hx])
          have hx2 : x.1.1 ≠ e.1.1 := by
            intro heq
            have hlt2 : toLex e2.1 < toLex x.1 := (List.pairwise_cons.1 hpw1).1 x hx
            have hxp := hwg.2.1 x (hmem x (by simp [hx]))
            rcases (Prod.Lex.lt_iff _ _).1 hlt2 with h | ⟨_, h⟩
            · rw [hname, heq] at h
              exact lt_irrefl _ h
            · omega
          simp [hx1, hx2]
        have hused2 : ∀ name, name ∈ used ++ [e.1.1] ↔ ∃ x ∈ pre ++ [e, e2], x.1.1 = name := by
          intro name
          constructor
          · intro hn
            rcases List.mem_append.1 hn with h | h
            · obtain ⟨x, hx, hxn⟩ := (hused name).1 h
              exact ⟨x, List.mem_append_left _ hx, hxn⟩
            · exact ⟨e, by simp, (List.mem_singleton.1 h).symm⟩
          · rintro ⟨x, hx, hxn⟩
            rcases List.mem_append.1 hx with h | h
            · exact List.mem_append_left _ ((hused name).2 ⟨x, h, hxn⟩)
            · have : x.1.1 = e.1.1 := by
                simp at h
                rcases h with rfl | rfl
                · rfl
                · exact hname
              simp [← hxn, this]
        have hIH := ih (pre ++ [e, e2]) rest2 (used ++ [e.1.1])
          (by simp at hlen; omega) (by simp [hts]) hused2 hfresh2
        rw [taggerLoop_cons_used self ts rest2 e2 _ (by simp [hname]), hother,
          singleHitsOf_cons, matchedHitsOf_cons, hpe, hpe2, hname]
        rw [hother] at hX
        rw [List.perm_iff_count]
        intro a
        have c1 := hX.count_eq a
        have c2 := hIH.count_eq a
        simp only [List.count_append, if_true, Bool.false_eq_true, if_false, List.count_nil]
          at c1 c2 ⊢
        omega
      · have hnames : ∀ x ∈ rest1, x.1.1 ≠ e.1.1 := by
          intro x hx heq
          cases rest1 with
          | nil => simp at hx
          | cons e2 rest2 =>
            have hne2 : e2.1.1 ≠ e.1.1 := fun h => hnext ⟨e2, rest2, rfl, h⟩
            have hlt : toLex e.1 < toLex e2.1 := helt e2 (List.mem_cons_self _ _)
            have hlt1 : e.1.1 < e2.1.1 := by
              rcases (Prod.Lex.lt_iff _ _).1 hlt with h | ⟨h, _⟩
              · exact h
              · exact absurd h.symm hne2
            rcases List.mem_cons.1 hx with rfl | hx2
            · exact hne2 heq
            · have hlt2 : toLex e2.1 < toLex x.1 := (List.pairwise_cons.1 hpw1).1 x hx2
              have hle : e2.1.1 ≤ x.1.1 := by
                rcases (Prod.Lex.lt_iff _ _).1 hlt2 with h | ⟨h, _⟩
                · exact le_of_lt h
                · exact le_of_eq h
              rw [heq] at hle
              exact absurd hlt1 (not_lt.2 hle)
        have hother : stripsAt ts (e.1.1, oppositePlane e.1.2) = [] := by
          apply stripsAt_of_not_mem
          intro x hx hk
          rw [hts] at hx
          have hxn : x.1.1 = e.1.1 := by rw [hk]
          have hxp : x.1.2 = oppositePlane e.1.2 := by rw [hk]
          rcases List.mem_append.1 hx with h | h
          · exact hnot ((hused e.1.1).2 ⟨x, h, hxn⟩)
          · rcases List.mem_cons.1 h with rfl | h
            · exact oppositePlane_ne _ hxp.symm
            · exact hnames x h hxn
        have hpe : isPrimaryEntry ts e = true := by
          have hle := hwg.2.1 e he_ts
          rcases Nat.eq_zero_or_pos e.1.2 with h0 | hpos
          · simp [isPrimaryEntry, primaryPlane_of_plane_zero ts hwg e he_ts h0, h0]
          · have h1 : e.1.2 = 1 := by omega
            have hopp : oppositePlane e.1.2 = 0 := by
              rw [h1]
              rfl
            rw [hopp] at hother
            simp [isPrimaryEntry, primaryPlane, hother, h1]
        have hfresh1 : ∀ x ∈ rest1, x.1.1 ∉ used ++ [e.1.1] := by
          intro x hx
          have hx1 : x.1.1 ∉ used := hfresh x (List.mem_cons_of_mem _ hx)
          simp [hx1, hnames x hx]
        have hused1 : ∀ name, name ∈ used ++ [e.1.1] ↔ ∃ x ∈ pre ++ [e], x.1.1 = name := by
          intro name
          constructor
          · intro hn
            rcases List.mem_append.1 hn with h | h
            · obtain ⟨x, hx, hxn⟩ := (hused name).1 h
              exact ⟨x, List.mem_append_left _ hx, hxn⟩
            · exact ⟨e, by simp, (List.mem_singleton.1 h).symm⟩
          · rintro ⟨x, hx, hxn⟩
            rcases List.mem_append.1 hx with h | h
            · exact List.mem_append_left _ ((hused name).2 ⟨x, h, hxn⟩)
            · have : x = e := by simpa using h
              simp [← hxn, this]
        have hIH := ih (pre ++ [e]) rest1 (used ++ [e.1.1])
          (by simp at hlen; omega) (by simp [hts]) hused1 hfresh1
        rw [hpe]
        rw [List.perm_iff_count]
        intro a
        have c1 := hX.count_eq a
        have c2 := hIH.count_eq a
        simp only [hother, List.count_append, if_true, List.filter_nil, List.map_nil,
          List.count_nil] at c1 c2 ⊢
        omega

/-- On a well grouped map the tagger loop records, up to order, one
single-plane hit for every strip hit whose module is not overlapping and the
matched hits of the first planes. -/
theorem taggerLoop_perm (self : CRTSimHitProducer) (ts : TaggerStrips)
    (hwg : WellGrouped ts) :
    (taggerLoop self ts ts []).Perm (singleHitsOf self ts ++ matchedHitsOf self ts ts) :=
  taggerLoop_perm_aux self ts hwg ts.length [] ts [] (le_refl _) rfl (by simp) (by simp)

/-- When every strip hit is stored under its own tagger, the single-plane hits
are those of the strip hits of the map whose module is not overlapping, each
with its own tagger name. -/
theorem singleHitsOf_eq_map (self : CRTSimHitProducer) (ts : TaggerStrips)
    (htag : ∀ e ∈ ts, ∀ x ∈ e.2, x.tagger = e.1) :
    singleHitsOf self ts
      = ((allStrips ts).filter fun h => !CheckModuleOverlap self h.channel).map
          fun h => singlePlaneHit self h.tagger.1 h := by
  induction ts with
  | nil => rfl
  | cons e rest ih =>
    have hrest := ih fun e0 he0 => htag e0 (List.mem_cons_of_mem _ he0)
    have hhead : (e.2.filter fun h => !CheckModuleOverlap self h.channel).map
          (singlePlaneHit self e.1.1)
        = (e.2.filter fun h => !CheckModuleOverlap self h.channel).map
          fun h => singlePlaneHit self h.tagger.1 h := by
      apply List.map_congr_left
      intro x hx
      rw [htag e (List.mem_cons_self _ _) x (List.mem_filter.1 hx).1]
    rw [singleHitsOf_cons, hrest, hhead]
    simp [allStrips, List.flatMap_cons, List.filter_append]

/-- A strip hit read under a key is in the entry of the map that has this
key. -/
theorem mem_stripsAt (ts : TaggerStrips) (k : String × Nat) (x : CRTStrip)
    (hx : x ∈ stripsAt ts k) : ∃ e ∈ ts, e.1 = k ∧ x ∈ e.2 := by
  unfold stripsAt at hx
  cases hf : ts.find? (fun e => decide (e.1 = k)) with
  | none => simp [hf] at hx
  | some e =>
    rw [hf] at hx
    have hk := List.find?_some hf
    exact ⟨e, List.mem_of_find?_eq_some hf, by simpa using hk, hx⟩

/-- Every matched hit of the first planes is the hit recorded for a pair
`(h, h2)` of strip hits of the map, `h` in an overlapping module. -/
theorem mem_matchedHitsOf (self : CRTSimHitProducer) (ts : TaggerStrips) (hit : CRTHit)
    (hhit : hit ∈ matchedHitsOf self ts ts) :
    ∃ e ∈ ts, ∃ h ∈ e.2, ∃ h2 ∈ stripsAt ts (e.1.1, oppositePlane e.1.2),
      e.1.2 = primaryPlane ts e.1.1 ∧ CheckModuleOverlap self h.channel = true
      ∧ matchedHit self e.1.1 h h2 = some hit := by
  unfold matchedHitsOf matchedHitsOfEntry at hhit
  obtain ⟨e, he, hin⟩ := List.mem_flatMap.1 hhit
  obtain ⟨he_ts, hprim⟩ := List.mem_filter.1 he
  obtain ⟨h, hh, hin2⟩ := List.mem_flatMap.1 hin
  obtain ⟨hh_mem, hov⟩ := List.mem_filter.1 hh
  obtain ⟨h2, hh2, hm⟩ := List.mem_filterMap.1 hin2
  exact ⟨e, he_ts, h, hh_mem, h2, hh2, by simpa [isPrimaryEntry] using hprim, hov, hm⟩

/-- The result of `produce` when the pulse loop ends without error. -/
theorem produce_of_build (self : CRTSimHitProducer) (crtList : List CRTData)
    (hits : List CRTStrip) (hb : buildStripHits self crtList = some hits) :
    produce self (some crtList)
      = some (taggerLoop self (dedupAll (groupStrips hits)) (dedupAll (groupStrips hits)) []) := by
  simp [produce, hb]

/-- The hits of `produce`, up to order: one single-plane hit for every strip
hit of the map whose module is not overlapping, and the matched hits of the
first planes. -/
theorem produce_perm (self : CRTSimHitProducer) (crtList : List CRTData)
    (hits : List CRTStrip) (hb : buildStripHits self crtList = some hits) :
    ∃ out : List CRTHit, produce self (some crtList) = some out
      ∧ out.Perm
        ((((allStrips (dedupAll (groupStrips hits))).filter
            fun h => !CheckModuleOverlap self h.channel).map
            fun h => singlePlaneHit self h.tagger.1 h)
          ++ matchedHitsOf self (dedupAll (groupStrips hits)) (dedupAll (groupStrips hits))) := by
  refine ⟨_, produce_of_build self crtList hits hb, ?_⟩
  have hwg := wellGrouped_dedupAll hits (plane_le_one_of_build self crtList hits hb)
  rw [← singleHitsOf_eq_map self _ (partition_tagged hits)]
  exact taggerLoop_perm self _ hwg

/-! ## What the tagger loop emits -/

/-- The single-plane hit of a strip hit: the midpoint and the half extent of
its box on each axis, and its time. -/
theorem singlePlaneHit_eq (self : CRTSimHitProducer) (tagger : String) (h : CRTStrip) :
    singlePlaneHit self tagger h
      = FillCrtHit [0] [(0, [(0, 0)])] 0 h.t0
          (((ChannelToLimits self h).minX + (ChannelToLimits self h).maxX) / 2)
          (((ChannelToLimits self h).maxX - (ChannelToLimits self h).minX) / 2)
          (((ChannelToLimits self h).minY + (ChannelToLimits self h).maxY) / 2)
          (((ChannelToLimits self h).maxY - (ChannelToLimits self h).minY) / 2)
          (((ChannelToLimits self h).minZ + (ChannelToLimits self h).maxZ) / 2)
          (((ChannelToLimits self h).maxZ - (ChannelToLimits self h).minZ) / 2)
          tagger := by
  obtain ⟨wx, wy, wz⟩ := ChannelToLimits_wellFormed self h
  unfold singlePlaneHit
  simp only []
  rw [abs_of_nonneg (by linarith), abs_of_nonneg (by linarith), abs_of_nonneg (by linarith)]

/-- C12. For every event, the hits of `produce` are, up to order, one
single-plane hit for each strip hit of the map after the removal of duplicates
(any tagger, either plane) whose module is not overlapping, and the hits
recorded for matched pairs; the single-plane hit of a strip hit has the midpoint
and the half extent of its own box as position and error, its own time and its
own tagger name. -/
theorem non_overlapping_emitted_once (self : CRTSimHitProducer) (crtList : List CRTData)
    (hits : List CRTStrip) (hb : buildStripHits self crtList = some hits) :
    ∃ (out matched : List CRTHit), produce self (some crtList) = some out
      ∧ out.Perm
        ((((allStrips (dedupAll (groupStrips hits))).filter
            fun h => !CheckModuleOverlap self h.channel).map
            fun h => singlePlaneHit self h.tagger.1 h) ++ matched)
      ∧ (∀ hit ∈ matched, ∃ (name : String) (h h2 : CRTStrip),
          CheckModuleOverlap self h.channel = true ∧ matchedHit self name h h2 = some hit)
      ∧ ∀ (name : String) (h : CRTStrip),
          singlePlaneHit self name h
            = FillCrtHit [0] [(0, [(0, 0)])] 0 h.t0
                (((ChannelToLimits self h).minX + (ChannelToLimits self h).maxX) / 2)
                (((ChannelToLimits self h).maxX - (ChannelToLimits self h).minX) / 2)
                (((ChannelToLimits self h).minY + (ChannelToLimits self h).maxY) / 2)
                (((ChannelToLimits self h).maxY - (ChannelToLimits self h).minY) / 2)
                (((ChannelToLimits self h).minZ + (ChannelToLimits self h).maxZ) / 2)
                (((ChannelToLimits self h).maxZ - (ChannelToLimits self h).minZ) / 2)
                name := by
  obtain ⟨out, hout, hperm⟩ := produce_perm self crtList hits hb
  refine ⟨out, _, hout, hperm, ?_, singlePlaneHit_eq self⟩
  intro hit hhit
  obtain ⟨e, _, h, _, h2, _, _, hov, hm⟩ := mem_matchedHitsOf self _ hit hhit
  exact ⟨e.1.1, h, h2, hov, hm⟩

/-- Witness of `non_overlapping_emitted_once`: in the detector whose modules do
not overlap, two strip hits, one in each plane, give two hits. -/
theorem non_overlapping_emitted_once_witness :
    (∃ (out matched : List CRTHit),
      produce separateDetector (some [pulseA 0, pulseA 0, pulseB 0, pulseB 0]) = some out
      ∧ out.Perm
        ((((allStrips (dedupAll (groupStrips
            [makeStripHit separateDetector (pulseA 0) (pulseA 0),
             makeStripHit separateDetector (pulseB 0) (pulseB 0)]))).filter
            fun h => !CheckModuleOverlap separateDetector h.channel).map
            fun h => singlePlaneHit separateDetector h.tagger.1 h) ++ matched)
      ∧ (∀ hit ∈ matched, ∃ (name : String) (h h2 : CRTStrip),
          CheckModuleOverlap separateDetector h.channel = true
          ∧ matchedHit separateDetector name h h2 = some hit)
      ∧ ∀ (name : String) (h : CRTStrip),
          singlePlaneHit separateDetector name h
            = FillCrtHit [0] [(0, [(0, 0)])] 0 h.t0
                (((ChannelToLimits separateDetector h).minX
                  + (ChannelToLimits separateDetector h).maxX) / 2)
                (((ChannelToLimits separateDetector h).maxX
                  - (ChannelToLimits separateDetector h).minX) / 2)
                (((ChannelToLimits separateDetector h).minY
                  + (ChannelToLimits separateDetector h).maxY) / 2)
                (((ChannelToLimits separateDetector h).maxY
                  - (ChannelToLimits separateDetector h).minY) / 2)
                (((ChannelToLimits separateDetector h).minZ
                  + (ChannelToLimits separateDetector h).maxZ) / 2)
                (((ChannelToLimits separateDetector h).maxZ
                  - (ChannelToLimits separateDetector h).minZ) / 2)
                name)
    ∧ (produce separateDetector (some [pulseA 0, pulseA 0, pulseB 0, pulseB 0])).map
        List.length = some 2 :=
  ⟨non_overlapping_emitted_once separateDetector [pulseA 0, pulseA 0, pulseB 0, pulseB 0]
    [makeStripHit separateDetector (pulseA 0) (pulseA 0),
     makeStripHit separateDetector (pulseB 0) (pulseB 0)] (by decide!), by decide!⟩

/-- C13, as stated, fails: in the small detector, the event with one strip hit
in each plane, at times 0 and 10, has both strip hits in overlapping modules and
no matched pair (the limit is 1), and the output holds no hit: neither strip
hit is emitted as a single-plane hit. -/
theorem unmatched_overlapping_counterexample :
    buildStripHits (smallDetector 0 false) [pulseA 0, pulseA 0, pulseB 80, pulseB 80]
      = some [stripA 0 0, stripB 0 80]
    ∧ dedupAll (groupStrips [stripA 0 0, stripB 0 80])
      = [(("tagger", 0), [stripA 0 0]), (("tagger", 1), [stripB 0 80])]
    ∧ CheckModuleOverlap (smallDetector 0 false) (stripA 0 0).channel = true
    ∧ CheckModuleOverlap (smallDetector 0 false) (stripB 0 80).channel = true
    ∧ matchedHit (smallDetector 0 false) "tagger" (stripA 0 0) (stripB 0 80) = none
    ∧ matchedHit (smallDetector 0 false) "tagger" (stripB 0 80) (stripA 0 0) = none
    ∧ produce (smallDetector 0 false) (some [pulseA 0, pulseA 0, pulseB 80, pulseB 80])
      = some [] := by
  decide!

/-- C13, amended.  For every event, a strip hit of the map whose module is
overlapping and which forms no matched pair is not emitted: every hit of the
output is the single-plane hit of a strip hit whose module is not overlapping,
or the hit recorded for a pair `(h, h2)` of strip hits with `h` in an
overlapping module and `h2` in the opposite plane of the same tagger; when all
modules are overlapping and no such pair matches, the output is empty.  The
first loop records nothing for a strip hit in an overlapping module without a
matching partner, and the second loop records nothing for a strip hit in an
overlapping module. -/
theorem overlapping_unmatched_not_emitted (self : CRTSimHitProducer)
    (crtList : List CRTData) (hits : List CRTStrip)
    (hb : buildStripHits self crtList = some hits) :
    ∃ out : List CRTHit, produce self (some crtList) = some out
      ∧ (∀ hit ∈ out,
          (∃ h ∈ allStrips (dedupAll (groupStrips hits)),
            CheckModuleOverlap self h.channel = false
            ∧ hit = singlePlaneHit self h.tagger.1 h)
          ∨ (∃ h ∈ allStrips (dedupAll (groupStrips hits)),
              ∃ h2 ∈ allStrips (dedupAll (groupStrips hits)),
              h2.tagger = (h.tagger.1, oppositePlane h.tagger.2)
              ∧ CheckModuleOverlap self h.channel = true
              ∧ matchedHit self h.tagger.1 h h2 = some hit))
      ∧ ((∀ h ∈ allStrips (dedupAll (groupStrips hits)),
            CheckModuleOverlap self h.channel = true) →
          (∀ h ∈ allStrips (dedupAll (groupStrips hits)),
            ∀ h2 ∈ allStrips (dedupAll (groupStrips hits)),
            h2.tagger = (h.tagger.1, oppositePlane h.tagger.2) →
            matchedHit self h.tagger.1 h h2 = none) →
          out = [])
      ∧ (∀ (name : String) (other : List CRTStrip) (h : CRTStrip),
          CheckModuleOverlap self h.channel = true →
          (∀ h2 ∈ other, matchedHit self name h h2 = none) →
          firstPlaneHits self name other h = [])
      ∧ ∀ (name : String) (h2 : CRTStrip), CheckModuleOverlap self h2.channel = true →
          otherPlaneHits self name [h2] = [] := by
  obtain ⟨out, hout, hperm⟩ := produce_perm self crtList hits hb
  have htag := partition_tagged hits
  have hmem : ∀ hit ∈ out,
      (∃ h ∈ allStrips (dedupAll (groupStrips hits)),
        CheckModuleOverlap self h.channel = false
        ∧ hit = singlePlaneHit self h.tagger.1 h)
      ∨ (∃ h ∈ allStrips (dedupAll (groupStrips hits)),
          ∃ h2 ∈ allStrips (dedupAll (groupStrips hits)),
          h2.tagger = (h.tagger.1, oppositePlane h.tagger.2)
          ∧ CheckModuleOverlap self h.channel = true
          ∧ matchedHit self h.tagger.1 h h2 = some hit) := by
    intro hit hhit
    rcases List.mem_append.1 (hperm.mem_iff.1 hhit) with hs | hmt
    · obtain ⟨h, hh, rfl⟩ := List.mem_map.1 hs
      obtain ⟨hh1, hh2⟩ := List.mem_filter.1 hh
      exact Or.inl ⟨h, hh1, by simpa using hh2, rfl⟩
    · obtain ⟨e, he, h, hh, h2, hh2, _, hov, hm⟩ := mem_matchedHitsOf self _ hit hmt
      obtain ⟨e2, he2, hk2, hh2e⟩ := mem_stripsAt _ _ h2 hh2
      refine Or.inr ⟨h, List.mem_flatMap.2 ⟨e, he, hh⟩, h2, List.mem_flatMap.2 ⟨e2, he2, hh2e⟩,
        ?_, hov, ?_⟩
      · rw [htag e2 he2 h2 hh2e, htag e he h hh]
        exact hk2
      · rw [htag e he h hh]
        exact hm
  refine ⟨out, hout, hmem, ?_, ?_, ?_⟩
  · intro hall hnone
    rw [List.eq_nil_iff_forall_not_mem]
    intro hit hhit
    rcases hmem hit hhit with ⟨h, hh, hov, _⟩ | ⟨h, hh, h2, hh2, hopp, _, hm⟩
    · rw [hall h hh] at hov
      exact absurd hov (by simp)
    · rw [hnone h hh h2 hh2 hopp] at hm
      exact absurd hm (by simp)
  · intro name other h hov hnone
    unfold firstPlaneHits
    rw [if_pos hov]
    exact List.filterMap_eq_nil_iff.2 hnone
  · intro name h2 hov
    simp [otherPlaneHits, hov]

/-- Witness of `overlapping_unmatched_not_emitted`: the event of the small
detector with one strip hit in each plane, at times 0 and 10; its output is
empty. -/
theorem overlapping_unmatched_not_emitted_witness :
    ∃ out : List CRTHit,
      produce (smallDetector 0 false) (some [pulseA 0, pulseA 0, pulseB 80, pulseB 80])
        = some out
      ∧ out = [] := by
  obtain ⟨out, hout, _, hnil, _, _⟩ :=
    overlapping_unmatched_not_emitted (smallDetector 0 false)
      [pulseA 0, pulseA 0, pulseB 80, pulseB 80] [stripA 0 0, stripB 0 80] (by decide!)
  exact ⟨out, hout, hnil (by decide!) (by decide!)⟩

/-! ## Time coincidence -/

/-- C3, as stated, fails: in the detector whose modules do not overlap, the
strip hits of channels 0 and 32 (planes 0 and 1 of one tagger, same time) have
boxes for which `CrtOverlap` answers a non-sentinel result, the loop body for
the pair would give a hit, and yet no matched hit is recorded: the module of the
first-plane strip hit is not overlapping, and the event gives the two
single-plane hits only, neither of which is the hit of the pair. -/
theorem time_coincidence_counterexample :
    (CrtOverlap
        (ChannelToLimits separateDetector (makeStripHit separateDetector (pulseA 0) (pulseA 0)))
        (ChannelToLimits separateDetector
          (makeStripHit separateDetector (pulseB 0) (pulseB 0)))).minX ≠ -99999
    ∧ |(makeStripHit separateDetector (pulseA 0) (pulseA 0)).t0
        - (makeStripHit separateDetector (pulseB 0) (pulseB 0)).t0|
        < separateDetector.fTimeCoincidenceLimit
    ∧ CheckModuleOverlap separateDetector
        (makeStripHit separateDetector (pulseA 0) (pulseA 0)).channel = false
    ∧ (matchedHit separateDetector "tagger" (makeStripHit separateDetector (pulseA 0) (pulseA 0))
        (makeStripHit separateDetector (pulseB 0) (pulseB 0))).isSome = true
    ∧ produce separateDetector (some [pulseA 0, pulseA 0, pulseB 0, pulseB 0])
      = some [singlePlaneHit separateDetector "tagger"
                (makeStripHit separateDetector (pulseA 0) (pulseA 0)),
              singlePlaneHit separateDetector "tagger"
                (makeStripHit separateDetector (pulseB 0) (pulseB 0))]
    ∧ matchedHit separateDetector "tagger" (makeStripHit separateDetector (pulseA 0) (pulseA 0))
        (makeStripHit separateDetector (pulseB 0) (pulseB 0))
      ≠ some (singlePlaneHit separateDetector "tagger"
          (makeStripHit separateDetector (pulseA 0) (pulseA 0)))
    ∧ matchedHit separateDetector "tagger" (makeStripHit separateDetector (pulseA 0) (pulseA 0))
        (makeStripHit separateDetector (pulseB 0) (pulseB 0))
      ≠ some (singlePlaneHit separateDetector "tagger"
          (makeStripHit separateDetector (pulseB 0) (pulseB 0))) := by
  decide!

/-- C3, amended.  For every event, every strip hit `h` of the first plane of a
tagger (plane 0 if its partition is not empty, plane 1 otherwise) whose module
is overlapping, and every strip hit `h2` of the opposite plane of that tagger,
such that `CrtOverlap` answers a non-sentinel result for their boxes (entry 0
is not `-99999`, the test of the module): a hit is recorded for `(h, h2)` if and
only if `|h.time - h2.time| < timeCoincidenceLimit`.  When the difference is
smaller than the limit the hit of the pair is in the output of `produce`; when
it equals the limit no hit is recorded for the pair.  The hits that the loop
records for `h` are those of its pairs, and every hit of the output is the
single-plane hit of a strip hit whose module is not overlapping or the hit of a
pair whose times differ by less than the limit. -/
theorem time_coincidence_strict (self : CRTSimHitProducer) (crtList : List CRTData)
    (hits : List CRTStrip) (name : String) (h h2 : CRTStrip)
    (hb : buildStripHits self crtList = some hits)
    (hh : h ∈ stripsAt (dedupAll (groupStrips hits))
      (name, primaryPlane (dedupAll (groupStrips hits)) name))
    (hmod : CheckModuleOverlap self h.channel = true)
    (hh2 : h2 ∈ stripsAt (dedupAll (groupStrips hits))
      (name, oppositePlane (primaryPlane (dedupAll (groupStrips hits)) name)))
    (hov : (CrtOverlap (ChannelToLimits self h) (ChannelToLimits self h2)).minX ≠ -99999) :
    ∃ out : List CRTHit, produce self (some crtList) = some out
      ∧ ((matchedHit self name h h2).isSome = true
          ↔ |h.t0 - h2.t0| < self.fTimeCoincidenceLimit)
      ∧ (|h.t0 - h2.t0| < self.fTimeCoincidenceLimit →
          ∃ hit : CRTHit, matchedHit self name h h2 = some hit ∧ hit ∈ out)
      ∧ (|h.t0 - h2.t0| = self.fTimeCoincidenceLimit → matchedHit self name h h2 = none)
      ∧ firstPlaneHits self name
          (stripsAt (dedupAll (groupStrips hits))
            (name, oppositePlane (primaryPlane (dedupAll (groupStrips hits)) name))) h
        = (stripsAt (dedupAll (groupStrips hits))
            (name, oppositePlane (primaryPlane (dedupAll (groupStrips hits)) name))).filterMap
            (matchedHit self name h)
      ∧ ∀ hit ∈ out,
          (∃ s ∈ allStrips (dedupAll (groupStrips hits)),
            CheckModuleOverlap self s.channel = false
            ∧ hit = singlePlaneHit self s.tagger.1 s)
          ∨ (∃ a ∈ allStrips (dedupAll (groupStrips hits)),
              ∃ b ∈ allStrips (dedupAll (groupStrips hits)),
              b.tagger = (a.tagger.1, oppositePlane a.tagger.2)
              ∧ CheckModuleOverlap self a.channel = true
              ∧ |a.t0 - b.t0| < self.fTimeCoincidenceLimit
              ∧ matchedHit self a.tagger.1 a b = some hit) := by
  obtain ⟨out, hout, hperm⟩ := produce_perm self crtList hits hb
  have htag := partition_tagged hits
  have key := matchedHit_isSome self name h h2
  have hiff : (matchedHit self name h h2).isSome = true
      ↔ |h.t0 - h2.t0| < self.fTimeCoincidenceLimit := by
    rw [key]
    simp [hov]
  refine ⟨out, hout, hiff, ?_, ?_, by simp [firstPlaneHits, hmod], ?_⟩
  · intro hlt
    obtain ⟨hit, hm⟩ := Option.isSome_iff_exists.1 (hiff.2 hlt)
    refine ⟨hit, hm, hperm.mem_iff.2 (List.mem_append_right _ ?_)⟩
    obtain ⟨e, he, hk, hhe⟩ := mem_stripsAt _ _ h hh
    unfold matchedHitsOf matchedHitsOfEntry
    refine List.mem_flatMap.2 ⟨e, List.mem_filter.2 ⟨he, ?_⟩, ?_⟩
    · simp [isPrimaryEntry, hk]
    · refine List.mem_flatMap.2 ⟨h, List.mem_filter.2 ⟨hhe, hmod⟩, ?_⟩
      rw [hk]
      exact List.mem_filterMap.2 ⟨h2, hh2, hm⟩
  · intro heq
    cases hm : matchedHit self name h h2 with
    | none => rfl
    | some hit =>
      have hlt : |h.t0 - h2.t0| < self.fTimeCoincidenceLimit := hiff.1 (by simp [hm])
      exact absurd heq (ne_of_lt hlt)
  · intro hit hhit
    rcases List.mem_append.1 (hperm.mem_iff.1 hhit) with hs | hmt
    · obtain ⟨s, hs1, rfl⟩ := List.mem_map.1 hs
      obtain ⟨hs2, hs3⟩ := List.mem_filter.1 hs1
      exact Or.inl ⟨s, hs2, by simpa using hs3, rfl⟩
    · obtain ⟨e, he, a, ha, b, hb2, _, hova, hm⟩ := mem_matchedHitsOf self _ hit hmt
      obtain ⟨e2, he2, hk2, hbe⟩ := mem_stripsAt _ _ b hb2
      refine Or.inr ⟨a, List.mem_flatMap.2 ⟨e, he, ha⟩, b, List.mem_flatMap.2 ⟨e2, he2, hbe⟩,
        ?_, hova, ?_, ?_⟩
      · rw [htag e2 he2 b hbe, htag e he a ha]
        exact hk2
      · exact ((matchedHit_isSome self e.1.1 a b).1 (by simp [hm])).2
      · rw [htag e he a ha]
        exact hm

/-- Witness of `time_coincidence_strict`: in the small detector, whose limit
is 1, the strip hits at times 0 and 7/8 give a hit, which is in the output of
the event; the strip hits at times 0 and 1 give none, and the output of that
event is empty. -/
theorem time_coincidence_strict_witness :
    (∃ out : List CRTHit,
      produce (smallDetector 0 false) (some [pulseA 0, pulseA 0, pulseB 7, pulseB 7]) = some out
      ∧ ∃ hit : CRTHit,
          matchedHit (smallDetector 0 false) "tagger" (stripA 0 0) (stripB 0 7) = some hit
          ∧ hit ∈ out)
    ∧ matchedHit (smallDetector 0 false) "tagger" (stripA 0 0) (stripB 0 8) = none
    ∧ produce (smallDetector 0 false) (some [pulseA 0, pulseA 0, pulseB 8, pulseB 8])
        = some [] := by
  obtain ⟨out, hout, _, hrec, _, _, _⟩ :=
    time_coincidence_strict (smallDetector 0 false) [pulseA 0, pulseA 0, pulseB 7, pulseB 7]
      [stripA 0 0, stripB 0 7] "tagger" (stripA 0 0) (stripB 0 7)
      (by decide!) (by decide!) (by decide!) (by decide!) (by decide!)
  obtain ⟨_, _, _, _, hnone, _, _⟩ :=
    time_coincidence_strict (smallDetector 0 false) [pulseA 0, pulseA 0, pulseB 8, pulseB 8]
      [stripA 0 0, stripB 0 8] "tagger" (stripA 0 0) (stripB 0 8)
      (by decide!) (by decide!) (by decide!) (by decide!) (by decide!)
  exact ⟨⟨out, hout, hrec (by decide!)⟩, hnone (by decide!), by decide!⟩

/-! ## Number of hits -/

/-- The hit of a pair is recorded exactly when `pairMatches` holds. -/
theorem matchedHit_isSome_eq (self : CRTSimHitProducer) (tagger : String) (h h2 : CRTStrip) :
    (matchedHit self tagger h h2).isSome = pairMatches self h h2 := by
  have key := matchedHit_isSome self tagger h h2
  unfold pairMatches
  by_cases hc : (CrtOverlap (ChannelToLimits self h) (ChannelToLimits self h2)).minX ≠ -99999
      ∧ |h.t0 - h2.t0| < self.fTimeCoincidenceLimit
  · rw [key.2 hc, decide_eq_true hc]
  · rw [decide_eq_false hc]
    cases hm : (matchedHit self tagger h h2).isSome
    · rfl
    · exact absurd (key.1 hm) hc

/-- A strip hit with `k` matching partners in the other plane gets `k` matched
hits. -/
theorem length_filterMap_matchedHit (self : CRTSimHitProducer) (tagger : String)
    (h : CRTStrip) (other : List CRTStrip) :
    (other.filterMap (matchedHit self tagger h)).length
      = (other.filter (pairMatches self h)).length := by
  induction other with
  | nil => rfl
  | cons h2 l ih =>
    have hs := matchedHit_isSome_eq self tagger h h2
    cases hm : matchedHit self tagger h h2 with
    | none =>
      rw [hm] at hs
      simp [List.filterMap_cons, List.filter_cons, hm, ← hs, ih]
    | some hit =>
      rw [hm] at hs
      simp [List.filterMap_cons, List.filter_cons, hm, ← hs, ih]

/-- The number of matched hits of an entry that is the first plane of its
tagger is the number of matched pairs of the tagger. -/
theorem length_matchedHitsOfEntry (self : CRTSimHitProducer) (ts : TaggerStrips)
    (hwg : WellGrouped ts) (e : (String × Nat) × List CRTStrip) (he : e ∈ ts)
    (hprim : e.1.2 = primaryPlane ts e.1.1) :
    (matchedHitsOfEntry self ts e).length = matchedPairCount self ts e.1.1 := by
  have hs : stripsAt ts (e.1.1, primaryPlane ts e.1.1) = e.2 := by
    rw [← hprim]
    exact stripsAt_of_mem ts hwg.1 e he
  unfold matchedHitsOfEntry matchedPairCount
  rw [hs, ← hprim, List.length_flatMap]
  congr 1
  apply List.map_congr_left
  intro h _
  exact length_filterMap_matchedHit self e.1.1 h _

/-- Every tagger name of a well grouped map is the name of exactly one entry
that is a first plane. -/
theorem primary_names (ts : TaggerStrips) (hwg : WellGrouped ts) :
    ((ts.filter (isPrimaryEntry ts)).map fun e => e.1.1).Nodup
    ∧ ((ts.filter (isPrimaryEntry ts)).map fun e => e.1.1).toFinset
        = (ts.map fun e => e.1.1).toFinset := by
  constructor
  · rw [List.Nodup, List.pairwise_map]
    refine List.Pairwise.imp_of_mem ?_ (hwg.1.filter (isPrimaryEntry ts))
    intro a b ha hb hlt heq
    have hpa : a.1.2 = primaryPlane ts a.1.1 := by
      simpa [isPrimaryEntry] using (List.mem_filter.1 ha).2
    have hpb : b.1.2 = primaryPlane ts b.1.1 := by
      simpa [isPrimaryEntry] using (List.mem_filter.1 hb).2
    rcases (Prod.Lex.lt_iff _ _).1 hlt with h | ⟨_, h⟩
    · rw [heq] at h
      exact lt_irrefl _ h
    · rw [hpa, hpb, heq] at h
      exact lt_irrefl _ h
  · ext name
    simp only [List.mem_toFinset, List.mem_map, List.mem_filter]
    constructor
    · rintro ⟨e, ⟨he, _⟩, hn⟩
      exact ⟨e, he, hn⟩
    · rintro ⟨e, he, hn⟩
      have hle := hwg.2.1 e he
      rcases Nat.eq_zero_or_pos e.1.2 with h0 | hpos
      · exact ⟨e, ⟨he, by simp [isPrimaryEntry,
          primaryPlane_of_plane_zero ts hwg e he h0, h0]⟩, hn⟩
      · have h1 : e.1.2 = 1 := by omega
        by_cases hz : stripsAt ts (e.1.1, 0) = []
        · exact ⟨e, ⟨he, by simp [isPrimaryEntry, primaryPlane, hz, h1]⟩, hn⟩
        · obtain ⟨x, hx⟩ := List.exists_mem_of_ne_nil _ hz
          obtain ⟨e0, he0, hk0, _⟩ := mem_stripsAt ts _ x hx
          have hname0 : e0.1.1 = e.1.1 := by rw [hk0]
          have hplane0 : e0.1.2 = 0 := by rw [hk0]
          exact ⟨e0, ⟨he0, by simp [isPrimaryEntry,
            primaryPlane_of_plane_zero ts hwg e0 he0 hplane0, hplane0]⟩, by rw [hname0, hn]⟩

/-- The number of matched hits of the first planes is the sum over the tagger
names of the numbers of matched pairs. -/
theorem length_matchedHitsOf (self : CRTSimHitProducer) (ts : TaggerStrips)
    (hwg : WellGrouped ts) :
    (matchedHitsOf self ts ts).length = matchedCount self ts := by
  obtain ⟨hnodup, hfin⟩ := primary_names ts hwg
  unfold matchedCount matchedHitsOf
  rw [← hfin, List.sum_toFinset _ hnodup, List.length_flatMap, List.map_map]
  congr 1
  apply List.map_congr_left
  intro e he
  obtain ⟨he_ts, hp⟩ := List.mem_filter.1 he
  exact length_matchedHitsOfEntry self ts hwg e he_ts (by simpa [isPrimaryEntry] using hp)

/-- C18. For every event, the number of hits of the output is `S + M`: `S` is
the number of strip hits of the map after the removal of duplicates (all
taggers, both planes) whose module is not overlapping, and `M` is the sum over
the tagger names of the number of pairs `(h, h2)` with `h` in the first plane of
the tagger (plane 0 if its partition is not empty, plane 1 otherwise) and in an
overlapping module, `h2` in the opposite plane, a non-sentinel `CrtOverlap` of
their boxes and `|h.time - h2.time| < timeCoincidenceLimit`.  A strip hit of
the first plane in an overlapping module gets as many matched hits as it has
matching partners. -/
theorem output_count (self : CRTSimHitProducer) (crtList : List CRTData)
    (hits : List CRTStrip) (hb : buildStripHits self crtList = some hits) :
    ∃ out : List CRTHit, produce self (some crtList) = some out
      ∧ out.length = singleCount self (dedupAll (groupStrips hits))
          + matchedCount self (dedupAll (groupStrips hits))
      ∧ ∀ (name : String) (other : List CRTStrip) (h : CRTStrip),
          CheckModuleOverlap self h.channel = true →
          (firstPlaneHits self name other h).length
            = (other.filter (pairMatches self h)).length := by
  obtain ⟨out, hout, hperm⟩ := produce_perm self crtList hits hb
  have hwg := wellGrouped_dedupAll hits (plane_le_one_of_build self crtList hits hb)
  refine ⟨out, hout, ?_, ?_⟩
  · rw [hperm.length_eq, List.length_append, List.length_map, length_matchedHitsOf self _ hwg]
    rfl
  · intro name other h hov
    unfold firstPlaneHits
    rw [if_pos hov]
    exact length_filterMap_matchedHit self name h other

/-- Witness of `output_count`: the event of the small detector with one strip
hit in plane 0 and two in plane 1, all at the same time, has two hits. -/
theorem output_count_witness :
    (∃ out : List CRTHit,
      produce (smallDetector 0 false)
          (some [pulseA 0, pulseA 0, pulseB 0, pulseB 0, pulseB 2, pulseB 2]) = some out
      ∧ out.length
        = singleCount (smallDetector 0 false)
            (dedupAll (groupStrips [stripA 0 0, stripB 0 0, stripB 0 2]))
          + matchedCount (smallDetector 0 false)
            (dedupAll (groupStrips [stripA 0 0, stripB 0 0, stripB 0 2])))
    ∧ singleCount (smallDetector 0 false)
        (dedupAll (groupStrips [stripA 0 0, stripB 0 0, stripB 0 2])) = 0
    ∧ matchedCount (smallDetector 0 false)
        (dedupAll (groupStrips [stripA 0 0, stripB 0 0, stripB 0 2])) = 2 := by
  obtain ⟨out, hout, hlen, _⟩ := output_count (smallDetector 0 false)
    [pulseA 0, pulseA 0, pulseB 0, pulseB 0, pulseB 2, pulseB 2]
    [stripA 0 0, stripB 0 0, stripB 0 2] (by decide!)
  exact ⟨⟨out, hout, hlen⟩, by decide!, by decide!⟩

/-! ## Symmetries -/

/-- C22. For all boxes `b1` and `b2`, `CrtOverlap(b1, b2) = CrtOverlap(b2, b1)`. -/
theorem CrtOverlap_comm (b1 b2 : Limits) : CrtOverlap b1 b2 = CrtOverlap b2 b1 := by
  unfold CrtOverlap
  simp only [max_comm b1.minX, min_comm b1.maxX, max_comm b1.minY, min_comm b1.maxY,
    max_comm b1.minZ, min_comm b1.maxZ]

/-- C23. For every width, `QPed`, nonzero `QSlope` and pair of ADC values that
give `npe1 > 0` and `npe2 > 0`, the positions for the two orders of the pulses
add up to the width, `x(npe1, npe2) + x(npe2, npe1) = width`; equal
photoelectron counts give `x = width/2`; and two pairs of positive counts with
the same ratio `npe2/npe1` give the same position. -/
theorem position_symmetry (width QPed QSlope : ℝ) (ADC1 ADC2 : Int) (hq : QSlope ≠ 0)
    (h1 : 0 < photoelectrons (ADC1 : ℝ) QPed QSlope)
    (h2 : 0 < photoelectrons (ADC2 : ℝ) QPed QSlope) :
    stripPosition Real.arctan Real.log width
        (photoelectrons (ADC1 : ℝ) QPed QSlope) (photoelectrons (ADC2 : ℝ) QPed QSlope)
      + stripPosition Real.arctan Real.log width
        (photoelectrons (ADC2 : ℝ) QPed QSlope) (photoelectrons (ADC1 : ℝ) QPed QSlope)
      = width
    ∧ (photoelectrons (ADC1 : ℝ) QPed QSlope = photoelectrons (ADC2 : ℝ) QPed QSlope →
        stripPosition Real.arctan Real.log width
          (photoelectrons (ADC1 : ℝ) QPed QSlope) (photoelectrons (ADC2 : ℝ) QPed QSlope)
        = width / 2)
    ∧ ∀ m1 m2 : ℝ, 0 < m1 → 0 < m2 →
        m2 / m1 = photoelectrons (ADC2 : ℝ) QPed QSlope / photoelectrons (ADC1 : ℝ) QPed QSlope →
        stripPosition Real.arctan Real.log width m1 m2
          = stripPosition Real.arctan Real.log width
              (photoelectrons (ADC1 : ℝ) QPed QSlope)
              (photoelectrons (ADC2 : ℝ) QPed QSlope) := by
  have _hq := hq
  generalize photoelectrons (ADC1 : ℝ) QPed QSlope = n1 at h1 ⊢
  have _h1 := h1
  generalize photoelectrons (ADC2 : ℝ) QPed QSlope = n2 at h2 ⊢
  refine ⟨?_, ?_, ?_⟩
  · have hinv : n1 / n2 = (n2 / n1)⁻¹ := by rw [inv_div]
    rw [stripPosition_real, stripPosition_real, hinv, Real.log_inv, Real.arctan_neg]
    ring
  · intro heq
    rw [stripPosition_real, heq, div_self (ne_of_gt h2), Real.log_one, Real.arctan_zero]
    ring
  · intro m1 m2 _ _ hratio
    rw [stripPosition_real, stripPosition_real, hratio]

/-- Witness of `position_symmetry`: width 2, `QPed = 0`, `QSlope = 1`, ADC
values 1 and 3. -/
theorem position_symmetry_witness :
    stripPosition Real.arctan Real.log 2
        (photoelectrons ((1 : Int) : ℝ) 0 1) (photoelectrons ((3 : Int) : ℝ) 0 1)
      + stripPosition Real.arctan Real.log 2
        (photoelectrons ((3 : Int) : ℝ) 0 1) (photoelectrons ((1 : Int) : ℝ) 0 1)
      = 2 :=
  (position_symmetry 2 0 1 1 3 (by norm_num) (by norm_num [photoelectrons])
    (by norm_num [photoelectrons])).1

/-! ## `HitsCRT` -/

/-- The loop over the trajectory points sets `outsideAV` when a point is out of
the active volume and `insideAV` when a point is within it. -/
theorem trajectoryFlags_eq (geom : TpcGeometry) (points : List Vec3) :
    ∀ flags : Bool × Bool,
      trajectoryFlags geom points flags
        = (flags.1 || points.any (fun p => !insideActiveVolume geom p),
           flags.2 || points.any (insideActiveVolume geom)) := by
  induction points with
  | nil => intro flags; simp [trajectoryFlags]
  | cons p rest ih =>
    intro flags
    unfold trajectoryFlags
    cases hp : insideActiveVolume geom p <;> simp [ih, hp, Bool.or_assoc]

/-- C24, on the code: `HitsCRT` compares the PDG code with `std::abs(13)`,
`std::abs(11)`, ... (the constants, not the code), so it returns `true` exactly
for the codes 13, 11, 2212, 321, 211 with a trajectory point within the active
volume and one out of it, and `false` for every negative code: the particle of
code -13 with the points `(0,0,1)` within the volume and `(0,0,-1)` out of it
gets `false`, where the particle of code 13 with the same points gets `true`. -/
theorem HitsCRT_rejects_negative_codes :
    HitsCRT ⟨1, 1, 10⟩ ⟨-13, [⟨0, 0, 1⟩, ⟨0, 0, -1⟩]⟩ = false
    ∧ HitsCRT ⟨1, 1, 10⟩ ⟨13, [⟨0, 0, 1⟩, ⟨0, 0, -1⟩]⟩ = true
    ∧ insideActiveVolume ⟨1, 1, 10⟩ ⟨0, 0, 1⟩ = true
    ∧ insideActiveVolume ⟨1, 1, 10⟩ ⟨0, 0, -1⟩ = false
    ∧ (∀ (geom : TpcGeometry) (part : MCParticle),
        HitsCRT geom part = true
          ↔ (part.PdgCode = 13 ∨ part.PdgCode = 11 ∨ part.PdgCode = 2212
              ∨ part.PdgCode = 321 ∨ part.PdgCode = 211)
            ∧ (∃ p ∈ part.trajectory, insideActiveVolume geom p = true)
            ∧ (∃ p ∈ part.trajectory, insideActiveVolume geom p = false))
    ∧ ∀ (geom : TpcGeometry) (part : MCParticle), part.PdgCode < 0 →
        HitsCRT geom part = false := by
  have hchar : ∀ (geom : TpcGeometry) (part : MCParticle),
      HitsCRT geom part = true
        ↔ (part.PdgCode = 13 ∨ part.PdgCode = 11 ∨ part.PdgCode = 2212
            ∨ part.PdgCode = 321 ∨ part.PdgCode = 211)
          ∧ (∃ p ∈ part.trajectory, insideActiveVolume geom p = true)
          ∧ (∃ p ∈ part.trajectory, insideActiveVolume geom p = false) := by
    intro geom part
    have habs : |(13 : Int)| = 13 ∧ |(11 : Int)| = 11 ∧ |(2212 : Int)| = 2212
        ∧ |(321 : Int)| = 321 ∧ |(211 : Int)| = 211 := by
      refine ⟨?_, ?_, ?_, ?_, ?_⟩ <;> exact abs_of_nonneg (by norm_num)
    unfold HitsCRT
    simp only [habs.1, habs.2.1, habs.2.2.1, habs.2.2.2.1, habs.2.2.2.2, trajectoryFlags_eq]
    by_cases hpdg : part.PdgCode = 13 ∨ part.PdgCode = 11 ∨ part.PdgCode = 2212
        ∨ part.PdgCode = 321 ∨ part.PdgCode = 211
    · simp [hpdg, List.any_eq_true]
    · simp [hpdg]
  refine ⟨by decide!, by decide!, by decide!, by decide!, hchar, ?_⟩
  intro geom part hneg
  cases h : HitsCRT geom part with
  | false => rfl
  | true =>
    have := ((hchar geom part).1 h).1
    omega

/-! ## The map does not depend on the order of the strip hits -/

/-- The vector read under a key in a map with a first entry. -/
theorem stripsAt_cons (e : (String × Nat) × List CRTStrip) (ts : TaggerStrips)
    (k : String × Nat) :
    stripsAt (e :: ts) k = if e.1 = k then e.2 else stripsAt ts k := by
  unfold stripsAt
  by_cases h : e.1 = k
  · simp [List.find?_cons, h]
  · simp [List.find?_cons, h]

/-- After a `push_back` of `s` under `k0` in a map with keys in increasing
order, the vector read under `k0` has `s` appended, and the vectors read under
the other keys are as before. -/
theorem stripsAt_pushBack (m : TaggerStrips) (k0 : String × Nat) (s : CRTStrip)
    (hm : m.Pairwise (fun a b => toLex a.1 < toLex b.1)) (k : String × Nat) :
    stripsAt (pushBack m k0 s) k
      = if k = k0 then stripsAt m k ++ [s] else stripsAt m k := by
  induction m with
  | nil =>
    by_cases h : k = k0
    · subst h
      simp [pushBack, stripsAt_cons, stripsAt]
    · have h2 : ¬ k0 = k := fun h3 => h h3.symm
      simp [pushBack, stripsAt_cons, stripsAt, h, h2]
  | cons e0 rest ih =>
    obtain ⟨k1, v⟩ := e0
    obtain ⟨h0, hrest⟩ := List.pairwise_cons.1 hm
    by_cases hk : k0 = k1
    · have hpush : pushBack ((k1, v) :: rest) k0 s = (k1, v ++ [s]) :: rest := by
        simp [pushBack, hk]
      rw [hpush, stripsAt_cons, stripsAt_cons]
      subst hk
      by_cases hkk : k = k0
      · subst hkk
        simp
      · have h2 : ¬ k0 = k := fun h3 => hkk h3.symm
        simp [hkk, h2]
    · by_cases hlt : keyLess k0 k1 = true
      · have hpush : pushBack ((k1, v) :: rest) k0 s = (k0, [s]) :: (k1, v) :: rest := by
          simp [pushBack, hk, hlt]
        rw [hpush, stripsAt_cons]
        by_cases hkk : k = k0
        · subst hkk
          have hnone : stripsAt ((k1, v) :: rest) k = [] := by
            apply stripsAt_of_not_mem
            intro e he heq
            have hkk1 : toLex k < toLex k1 := (keyLess_iff_lex k k1).1 hlt
            rcases List.mem_cons.1 he with rfl | he2
            · exact hk heq.symm
            · have := lt_trans hkk1 (h0 e he2)
              rw [heq] at this
              exact lt_irrefl _ this
          rw [if_pos rfl, if_pos rfl, hnone]
          rfl
        · have h2 : ¬ k0 = k := fun h3 => hkk h3.symm
          rw [if_neg h2, if_neg hkk]
      · have hpush : pushBack ((k1, v) :: rest) k0 s = (k1, v) :: pushBack rest k0 s := by
          simp [pushBack, hk, hlt]
        rw [hpush, stripsAt_cons, stripsAt_cons, ih hrest]
        by_cases h1 : k1 = k
        · have hkk : ¬ k = k0 := fun h3 => hk (h3.symm.trans h1.symm)
          simp [h1, hkk]
        · simp [h1]

/-- After the pulse loop, the vector read under a key holds the strip hits of
this tagger in the order in which they were built. -/
theorem stripsAt_groupStrips (hits : List CRTStrip) (k : String × Nat) :
    stripsAt (groupStrips hits) k = hits.filter fun h => decide (h.tagger = k) := by
  have hfold : ∀ (l : List CRTStrip) (m : TaggerStrips),
      m.Pairwise (fun a b => toLex a.1 < toLex b.1) →
      (l.foldl (fun m h => pushBack m h.tagger h) m).Pairwise
          (fun a b => toLex a.1 < toLex b.1)
      ∧ stripsAt (l.foldl (fun m h => pushBack m h.tagger h) m) k
          = stripsAt m k ++ l.filter fun h => decide (h.tagger = k) := by
    intro l
    induction l with
    | nil => intro m hm; simpa using hm
    | cons s l ih =>
      intro m hm
      obtain ⟨hs, heq⟩ := ih (pushBack m s.tagger s) (pushBack_sorted m s.tagger s hm)
      refine ⟨hs, ?_⟩
      rw [List.foldl_cons, heq, stripsAt_pushBack m s.tagger s hm k]
      by_cases hk : k = s.tagger
      · subst hk
        simp [List.filter_cons]
      · have hk2 : ¬ s.tagger = k := fun h => hk h.symm
        simp [List.filter_cons, hk, hk2]
  have := (hfold hits [] List.Pairwise.nil).2
  simpa [groupStrips, stripsAt] using this

/-- After the removal of duplicates, the vector read under a key is the one read
before, sorted and without its duplicates. -/
theorem stripsAt_dedupAll (m : TaggerStrips) (k : String × Nat) :
    stripsAt (dedupAll m) k = dedupStrips (stripsAt m k) := by
  induction m with
  | nil => rfl
  | cons e rest ih =>
    have hcons : dedupAll (e :: rest) = (e.1, dedupStrips e.2) :: dedupAll rest := rfl
    rw [hcons, stripsAt_cons, stripsAt_cons, ih]
    by_cases h : e.1 = k
    · simp [h]
    · simp [h]

/-- Two well grouped maps in which the same vector is read under every key are
the same map. -/
theorem wellGrouped_ext (ts ts2 : TaggerStrips) (hwg : WellGrouped ts)
    (hwg2 : WellGrouped ts2) (hread : ∀ k, stripsAt ts k = stripsAt ts2 k) : ts = ts2 := by
  have hmem : ∀ (m : TaggerStrips), WellGrouped m → ∀ k,
      k ∈ m.map Prod.fst ↔ stripsAt m k ≠ [] := by
    intro m hm k
    constructor
    · intro hk
      obtain ⟨e, he, rfl⟩ := List.mem_map.1 hk
      rw [stripsAt_of_mem m hm.1 e he]
      exact hm.2.2 e he
    · intro hne
      by_contra hk
      exact hne (stripsAt_of_not_mem m k fun e he heq => hk (List.mem_map.2 ⟨e, he, heq⟩))
  have hcanon : ∀ (m : TaggerStrips), WellGrouped m →
      m = (m.map Prod.fst).map fun k => (k, stripsAt m k) := by
    intro m hm
    rw [List.map_map]
    conv_lhs => rw [← List.map_id m]
    apply List.map_congr_left
    intro e he
    simp [stripsAt_of_mem m hm.1 e he]
  haveI : IsAntisymm (String × Nat) (fun a b => toLex a < toLex b) :=
    ⟨fun a b h1 h2 => absurd h1 (lt_asymm h2)⟩
  haveI : IsIrrefl (String × Nat) (fun a b => toLex a < toLex b) :=
    ⟨fun a h => lt_irrefl _ h⟩
  have hsorted : ∀ (m : TaggerStrips), WellGrouped m →
      (m.map Prod.fst).Sorted (fun a b => toLex a < toLex b) := by
    intro m hm
    rw [List.Sorted, List.pairwise_map]
    exact hm.1
  have hkeys : ts.map Prod.fst = ts2.map Prod.fst := by
    refine List.eq_of_perm_of_sorted ?_ (hsorted ts hwg) (hsorted ts2 hwg2)
    rw [List.perm_ext_iff_of_nodup (hsorted ts hwg).nodup (hsorted ts2 hwg2).nodup]
    intro k
    rw [hmem ts hwg k, hmem ts2 hwg2 k, hread k]
  rw [hcanon ts hwg, hcanon ts2 hwg2, hkeys]
  apply List.map_congr_left
  intro k _
  rw [hread k]

/-- Two permutations of a list of strip hits with pairwise distinct
`(time, channel)` are sorted into the same list. -/
theorem sortStrips_congr (l l2 : List CRTStrip) (hperm : l.Perm l2)
    (hnodup : (l.map stripKey).Nodup) : sortStrips l = sortStrips l2 := by
  haveI : IsAntisymm CRTStrip sortComp :=
    ⟨fun a b h1 h2 => by
      rw [sortComp_iff_lex] at h1 h2
      exact absurd h1 (lt_asymm h2)⟩
  have hstrict : ∀ (s : List CRTStrip), s.Perm l → (sortStrips s).Sorted sortComp := by
    intro s hs
    have hp : (sortStrips s).Perm l := (sortStrips_perm s).trans hs
    have hn : ((sortStrips s).map stripKey).Nodup := (hp.map stripKey).nodup_iff.2 hnodup
    rw [List.Nodup, List.pairwise_map] at hn
    refine List.Pairwise.imp ?_ ((sortStrips_sorted s).and hn)
    intro a b hab
    rw [sortComp_iff_lex]
    exact lt_of_le_of_ne ((notAfter_iff_lex a b).1 hab.1) fun heq => hab.2 (toLex.injective heq)
  refine List.eq_of_perm_of_sorted ?_ (hstrict l (List.Perm.refl l)) (hstrict l2 hperm.symm)
  exact (sortStrips_perm l).trans (hperm.trans (sortStrips_perm l2).symm)

/-- The map after the removal of duplicates is the same for two permutations of
a list of strip hits (with planes 0 or 1) in which no two strip hits of one
tagger and plane have the same `(time, channel)`. -/
theorem dedupAll_groupStrips_congr (hits hits2 : List CRTStrip) (hperm : hits2.Perm hits)
    (hplane : ∀ h ∈ hits, h.tagger.2 ≤ 1)
    (hdistinct : hits.Pairwise (fun a b => a.tagger = b.tagger → stripKey a ≠ stripKey b)) :
    dedupAll (groupStrips hits2) = dedupAll (groupStrips hits) := by
  have hplane2 : ∀ h ∈ hits2, h.tagger.2 ≤ 1 := fun h hh => hplane h (hperm.mem_iff.1 hh)
  refine wellGrouped_ext _ _ (wellGrouped_dedupAll hits2 hplane2)
    (wellGrouped_dedupAll hits hplane) fun k => ?_
  rw [stripsAt_dedupAll, stripsAt_dedupAll, stripsAt_groupStrips, stripsAt_groupStrips]
  have hnodup : ((hits.filter fun h => decide (h.tagger = k)).map stripKey).Nodup := by
    rw [List.Nodup, List.pairwise_map]
    refine List.Pairwise.imp_of_mem ?_ (hdistinct.filter _)
    intro a b ha hb hab
    have hta : a.tagger = k := by simpa using (List.mem_filter.1 ha).2
    have htb : b.tagger = k := by simpa using (List.mem_filter.1 hb).2
    exact hab (hta.trans htb.symm)
  unfold dedupStrips
  rw [sortStrips_congr _ _ (hperm.filter _).symm hnodup]

/-- C21. For every pulse collection of even length in which no two strip hits
of the same tagger and plane have the same `(time, channel)`, a collection made
of the same pulse pairs in another order gives the same sequence of output
hits, and `produce` ends without error on both. -/
theorem pair_order_independence (self : CRTSimHitProducer) (crtList crtList2 : List CRTData)
    (hits : List CRTStrip) (heven : crtList.length % 2 = 0)
    (heven2 : crtList2.length % 2 = 0)
    (hperm : (pulsePairs crtList2).Perm (pulsePairs crtList))
    (hb : buildStripHits self crtList = some hits)
    (hdistinct : hits.Pairwise (fun a b => a.tagger = b.tagger → stripKey a ≠ stripKey b)) :
    produce self (some crtList2) = produce self (some crtList)
    ∧ ∃ out : List CRTHit, produce self (some crtList) = some out := by
  have hb1 := buildStripHits_even self (crtList.length / 2) crtList (by omega)
  have hb2 := buildStripHits_even self (crtList2.length / 2) crtList2 (by omega)
  have hhits : hits = ((pulsePairs crtList).filter fun pq => passesReadoutWindow self pq.1).map
      fun pq => makeStripHit self pq.1 pq.2 := by
    rw [hb] at hb1
    exact Option.some.inj hb1
  have hp : ((((pulsePairs crtList2).filter fun pq => passesReadoutWindow self pq.1).map
      fun pq => makeStripHit self pq.1 pq.2)).Perm hits := by
    rw [hhits]
    exact (hperm.filter _).map _
  have hmap := dedupAll_groupStrips_congr hits _ hp
    (plane_le_one_of_build self crtList hits hb) hdistinct
  refine ⟨?_, _, produce_of_build self crtList hits hb⟩
  rw [produce_of_build self crtList hits hb, produce_of_build self crtList2 _ hb2, hmap]

/-- Witness of `pair_order_independence`: three pulse pairs of the small
detector, two on channel 0 at different times and one on channel 32, in two
orders. -/
theorem pair_order_independence_witness :
    produce (smallDetector 0 false)
        (some [pulseB 0, pulseB 0, pulseA 8, pulseA 8, pulseA 0, pulseA 0])
      = produce (smallDetector 0 false)
        (some [pulseA 0, pulseA 0, pulseA 8, pulseA 8, pulseB 0, pulseB 0]) :=
  (pair_order_independence (smallDetector 0 false)
    [pulseA 0, pulseA 0, pulseA 8, pulseA 8, pulseB 0, pulseB 0]
    [pulseB 0, pulseB 0, pulseA 8, pulseA 8, pulseA 0, pulseA 0]
    [stripA 0 0, stripA 0 8, stripB 0 0] (by decide) (by decide) (by decide!) (by decide!)
    (by decide!)).1

end sbnd
